import Mathlib

/-
  Verification of the pyprojectconverter repository: a shallow embedding of
  `poetry_to_pip.py`, `src/pyprojectconverter/pip_to_poetry.py` and
  `old_pip_to_poetry.py` in Lean 4, with theorems about the embedded code.

  Python strings are modelled as `List Char`.  Python functions that can raise
  an exception (ValueError from `int`, unpacking errors, KeyError, IndexError)
  return `Option`; `none` models the raised exception.
-/

namespace PyProject

/-- Characters stripped by Python `str.strip()` (the ASCII whitespace set;
    the rarely used further Unicode whitespace characters are not modelled). -/
def isPySpace (c : Char) : Bool :=
  c = ' ' || c = '\t' || c = '\n' || c = '\r' || c = '\x0b' || c = '\x0c'

/-- Python `str.strip()`. -/
def pyStrip (s : List Char) : List Char :=
  ((s.dropWhile isPySpace).reverse.dropWhile isPySpace).reverse

/-- Python `str.lower()` (ASCII case mapping, as used on package names). -/
def pyLower (s : List Char) : List Char :=
  s.map Char.toLower

/-- Boolean prefix test, Python `str.startswith` on the modelled strings. -/
def isPfx : List Char → List Char → Bool
  | [], _ => true
  | _ :: _, [] => false
  | p :: ps, c :: cs => decide (p = c) && isPfx ps cs

/-- Substring containment, Python `pat in s`. -/
def containsSub (pat : List Char) : List Char → Bool
  | [] => isPfx pat []
  | c :: rest => isPfx pat (c :: rest) || containsSub pat rest

/-- Split a string at the first occurrence of a (nonempty) separator,
    returning the part before and the part after the separator. -/
def splitAtFirst (sep : List Char) : List Char → Option (List Char × List Char)
  | [] => none
  | c :: rest =>
    if sep ≠ [] ∧ isPfx sep (c :: rest) then
      some ([], List.drop (sep.length - 1) rest)
    else
      (splitAtFirst sep rest).map (fun p => (c :: p.1, p.2))

/-- Fueled worker for `splitOnL`; every recursive call consumes one fuel and
    at least one character, so fuel `s.length + 1` never runs out. -/
def splitOnGo (sep : List Char) : Nat → List Char → List (List Char)
  | 0, s => [s]
  | fuel + 1, s =>
    match s with
    | [] => [[]]
    | c :: rest =>
      if sep ≠ [] ∧ isPfx sep (c :: rest) then
        [] :: splitOnGo sep fuel (List.drop (sep.length - 1) rest)
      else
        match splitOnGo sep fuel rest with
        | [] => [[c]]
        | r :: rs => (c :: r) :: rs

/-- Python `str.split(sep)` for a nonempty separator: split at every
    occurrence, keeping empty parts. -/
def splitOnL (sep s : List Char) : List (List Char) :=
  splitOnGo sep (s.length + 1) s

/-- Python `sep.join(parts)`. -/
def joinSepL (sep : List Char) : List (List Char) → List Char
  | [] => []
  | [x] => x
  | x :: y :: ys => x ++ sep ++ joinSepL sep (y :: ys)

/-- Fueled worker for `replaceL`. -/
def replaceGo (pat repl : List Char) : Nat → List Char → List Char
  | 0, s => s
  | fuel + 1, s =>
    match s with
    | [] => []
    | c :: rest =>
      if pat ≠ [] ∧ isPfx pat (c :: rest) then
        repl ++ replaceGo pat repl fuel (List.drop (pat.length - 1) rest)
      else
        c :: replaceGo pat repl fuel rest

/-- Python `str.replace(pat, repl)` for a nonempty pattern: replace all
    non-overlapping occurrences, left to right. -/
def replaceL (pat repl s : List Char) : List Char :=
  replaceGo pat repl (s.length + 1) s

/-- The ten decimal digit characters. -/
def digits09 : List Char := ['0', '1', '2', '3', '4', '5', '6', '7', '8', '9']

/-- Decimal digit test used by the model of Python `int()`. -/
def isDigitCh (c : Char) : Bool :=
  decide (c ∈ digits09)

/-- Numeric value of a digit string. -/
def digitsVal (s : List Char) : Nat :=
  s.foldl (fun a c => a * 10 + (c.toNat - 48)) 0

/-- Python `int(s)` on a string of decimal digits (`none` models ValueError).
    Whitespace is stripped and one leading sign is accepted; underscore digit
    separators and non-ASCII decimal digits are not modelled. -/
def pyInt (s : List Char) : Option Int :=
  match pyStrip s with
  | [] => none
  | c :: rest =>
    if c = '-' then
      if rest ≠ [] ∧ rest.all isDigitCh then some (-(digitsVal rest : Int)) else none
    else if c = '+' then
      if rest ≠ [] ∧ rest.all isDigitCh then some ((digitsVal rest : Int)) else none
    else
      if (c :: rest).all isDigitCh then some ((digitsVal (c :: rest) : Int)) else none

/-- Character of a decimal digit value. -/
def digitCh (d : Nat) : Char :=
  if d = 0 then '0' else if d = 1 then '1' else if d = 2 then '2'
  else if d = 3 then '3' else if d = 4 then '4' else if d = 5 then '5'
  else if d = 6 then '6' else if d = 7 then '7' else if d = 8 then '8'
  else if d = 9 then '9' else '?'

/-- Fueled worker producing decimal digits of a natural number. -/
def natToDigits : Nat → Nat → List Char → List Char
  | 0, _, acc => acc
  | fuel + 1, n, acc =>
    if n < 10 then digitCh n :: acc
    else natToDigits fuel (n / 10) (digitCh (n % 10) :: acc)

/-- Decimal representation of a natural number, Python `str(n)` for `n ≥ 0`. -/
def natRepr (n : Nat) : List Char :=
  natToDigits (n + 1) n []

/-- Python `str(i)` for an integer. -/
def pyIntStr (i : Int) : List Char :=
  if i < 0 then '-' :: natRepr i.natAbs else natRepr i.natAbs

/-- Values of a TOML document: strings, arrays and tables (ordered mappings). -/
inductive TVal where
  | s : List Char → TVal
  | arr : List TVal → TVal
  | tbl : List (List Char × TVal) → TVal

/-- A TOML table / Python dict: an ordered association list with unique keys. -/
abbrev Doc := List (List Char × TVal)

/-- First-match lookup in an ordered mapping, Python `d[k]` (total variant). -/
def lookupKV {α : Type} (k : List Char) : List (List Char × α) → Option α
  | [] => none
  | p :: ps => if p.1 = k then some p.2 else lookupKV k ps

/-- Python dict assignment `d[k] = v`: updating an existing key keeps its
    position, a new key is appended. -/
def dictInsert {α : Type} (d : List (List Char × α)) (k : List Char) (v : α) :
    List (List Char × α) :=
  if d.any (fun p => decide (p.1 = k)) then
    d.map (fun p => if p.1 = k then (k, v) else p)
  else
    d ++ [(k, v)]

/-- Option-valued map over a list, modelling a Python comprehension whose body
    may raise (the first raise aborts the whole call). -/
def mapMOpt {α β : Type} (f : α → Option β) : List α → Option (List β)
  | [] => some []
  | a :: as =>
    match f a, mapMOpt f as with
    | some b, some bs => some (b :: bs)
    | _, _ => none

def starK : List Char := ['*']
def caretK : List Char := ['^']
def tildeK : List Char := ['~']
def dotK : List Char := ['.']
def commaK : List Char := [',']
def geK : List Char := ['>', '=']
def eqeqK : List Char := ['=', '=']
def ltK : List Char := ['<']
def commaLtK : List Char := [',', '<']
def dot00K : List Char := ['.', '0', '.', '0']
def dot0K : List Char := ['.', '0']

def pythonK : List Char := "python".data
def caret311K : List Char := "^3.11".data
def nameK : List Char := "name".data
def versionK : List Char := "version".data
def descriptionK : List Char := "description".data
def authorsK : List Char := "authors".data
def licenseK : List Char := "license".data
def dependenciesK : List Char := "dependencies".data
def optDepsK : List Char := "optional-dependencies".data
def devK : List Char := "dev".data
def groupK : List Char := "group".data
def packagesK : List Char := "packages".data
def projectK : List Char := "project".data
def buildSystemK : List Char := "build-system".data
def requiresK : List Char := "requires".data
def buildBackendK : List Char := "build-backend".data
def toolK : List Char := "tool".data
def setuptoolsK : List Char := "setuptools".data
def poetryK : List Char := "poetry".data
def findK : List Char := "find".data
def whereK : List Char := "where".data
def includeK : List Char := "include".data
def fromK : List Char := "from".data
def docktunaK : List Char := "docktuna".data

/-- The `[tool.poetry]` table of a Poetry-form document, with the fields the
    converter reads.  `group = none` models a table without a `group` key,
    `group = some none` a `group` table without a `dev` key, and
    `group = some (some m)` a `group.dev` table whose `dependencies` mapping
    is `m`.  Dependency values are version-specifier strings, as the format
    prescribes. -/
structure PoetryMetadata where
  name : List Char
  version : List Char
  description : List Char
  authors : List (List Char)
  license : Option (List Char)
  dependencies : List (List Char × List Char)
  group : Option (Option (List (List Char × List Char)))

/-- A parsed Poetry-form source document as read by `poetry_to_pip.py`:
    the `tool.poetry` table plus the sections the converter never consults
    (the other entries of the top-level `tool` table, and the other top-level
    sections, each kept in document order). -/
structure PoetryDoc where
  other_tools : List (List Char × TVal)
  poetry : PoetryMetadata
  other_top : List (List Char × TVal)

namespace PoetryToPip

/-- Embedding of `convert_version_specifier` from `poetry_to_pip.py`:
    converts a Poetry version specifier to the pip equivalent.  `none` models
    the ValueError raised by `int(...)` or by tuple unpacking of the split. -/
def convert_version_specifier (version : List Char) : Option (List Char) :=
  if version = starK then
    some []
  else if isPfx caretK version then
    let base := version.drop 1
    match splitOnL dotK base with
    | [] => none
    | major :: _ =>
      match pyInt major with
      | none => none
      | some m => some (geK ++ base ++ commaLtK ++ pyIntStr (m + 1) ++ dot00K)
  else if isPfx tildeK version then
    let base := version.drop 1
    match splitOnL dotK base with
    | major :: minor :: _ =>
      if minor = [] then
        some (geK ++ base ++ commaLtK ++ major ++ dot00K)
      else
        match pyInt minor with
        | none => none
        | some mi =>
          some (geK ++ base ++ commaLtK ++ major ++ ('.' :: pyIntStr (mi + 1)) ++ dot0K)
    | _ => none
  else
    some version

/-- The body of the comprehensions in `get_dependencies` and
    `get_dev_dependencies`: one converted `f"{pkg}{convert_version_specifier(ver)}"`
    entry. -/
def convEntry (p : List Char × List Char) : Option (List Char) :=
  (convert_version_specifier p.2).map (fun v => p.1 ++ v)

/-- Embedding of `get_dependencies` from `poetry_to_pip.py`: converts the
    `tool.poetry.dependencies` mapping to a list of pip dependency strings,
    skipping every entry whose name lowercases to `python`. -/
def get_dependencies (pm : PoetryMetadata) : Option (List (List Char)) :=
  mapMOpt convEntry
    (pm.dependencies.filter (fun p => !(decide (pyLower p.1 = pythonK))))

/-- Embedding of `get_dev_dependencies` from `poetry_to_pip.py`: converts the
    `tool.poetry.group.dev.dependencies` mapping (when `group` and `dev` are
    present) to a list of pip dependency strings. -/
def get_dev_dependencies (pm : PoetryMetadata) : Option (List (List Char)) :=
  match pm.group with
  | some (some devdeps) => mapMOpt convEntry devdeps
  | _ => some []

/-- The `project` dictionary literal built by `create_pip_metadata`, before
    the conditional `optional-dependencies` assignment. -/
def pip_project_base (pm : PoetryMetadata) (dependencies : List (List Char)) : Doc :=
  [(nameK, TVal.s pm.name),
   (versionK, TVal.s pm.version),
   (descriptionK, TVal.s pm.description),
   (authorsK, TVal.arr (pm.authors.map TVal.s)),
   (dependenciesK, TVal.arr (dependencies.map TVal.s))]

/-- The `project` dictionary of `create_pip_metadata` after the
    `if dev_dependencies:` assignment. -/
def pip_project (pm : PoetryMetadata)
    (dependencies dev_dependencies : List (List Char)) : Doc :=
  if dev_dependencies ≠ [] then
    dictInsert (pip_project_base pm dependencies) optDepsK
      (TVal.tbl [(devK, TVal.arr (dev_dependencies.map TVal.s))])
  else pip_project_base pm dependencies

/-- The fixed `build-system` table emitted by `create_pip_metadata`. -/
def pip_build_system : Doc :=
  [(requiresK, TVal.arr [TVal.s "setuptools".data, TVal.s "wheel".data]),
   (buildBackendK, TVal.s "setuptools.build_meta".data)]

/-- Embedding of `create_pip_metadata` from `poetry_to_pip.py`: the
    pip-compatible metadata dictionary. -/
def create_pip_metadata (pm : PoetryMetadata) : Option Doc :=
  match get_dependencies pm, get_dev_dependencies pm with
  | some dependencies, some dev_dependencies =>
    some [(projectK, TVal.tbl (pip_project pm dependencies dev_dependencies)),
          (buildSystemK, TVal.tbl pip_build_system)]
  | _, _ => none

/-- The optional-dependencies handling of `write_to_pyproject_toml`: the
    rebuilt `optional-dependencies` entry when the key is present (`none`
    models the fault on a non-table value, whose `.items()` iteration Python
    would reject). -/
def optional_part (project : Doc) : Option Doc :=
  match lookupKV optDepsK project with
  | none => some []
  | some (TVal.tbl groups) => some [(optDepsK, TVal.tbl groups)]
  | some _ => none

/-- Embedding of `write_to_pyproject_toml` from `poetry_to_pip.py`, up to the
    file write: the fresh TOML document it assembles from `pip_metadata`.
    `none` models the KeyError on a missing key (a non-table where a table is
    required, which Python would fault on slightly later, is modelled the same
    way; the multiline array formatting is serialization detail and carries no
    document content). -/
def write_to_pyproject_toml (pipm : Doc) : Option Doc :=
  match lookupKV projectK pipm with
  | some (TVal.tbl project) =>
    match lookupKV nameK project, lookupKV versionK project,
          lookupKV descriptionK project, lookupKV authorsK project,
          lookupKV dependenciesK project with
    | some name, some version, some description, some authors, some deps =>
      match optional_part project with
      | none => none
      | some opt =>
        match lookupKV buildSystemK pipm with
        | some (TVal.tbl bs) =>
          match lookupKV requiresK bs, lookupKV buildBackendK bs with
          | some requires, some backend =>
            some [(projectK, TVal.tbl
                    ([(nameK, name), (versionK, version),
                      (descriptionK, description), (authorsK, authors),
                      (dependenciesK, deps)] ++ opt)),
                  (buildSystemK, TVal.tbl
                    [(requiresK, requires), (buildBackendK, backend)])]
          | _, _ => none
        | _ => none
    | _, _, _, _, _ => none
  | _ => none

/-- Embedding of `get_poetry_metadata`: `toml_doc["tool"]["poetry"]`. -/
def get_poetry_metadata (d : PoetryDoc) : PoetryMetadata :=
  d.poetry

/-- The conversion performed by `main` in `poetry_to_pip.py`, file I/O aside:
    extract `tool.poetry`, build the pip metadata, assemble the output
    document. -/
def poetry_to_pip_convert (d : PoetryDoc) : Option Doc :=
  match create_pip_metadata (get_poetry_metadata d) with
  | some pipm => write_to_pyproject_toml pipm
  | none => none

end PoetryToPip

/-- The `[project]` table of a pip-form document, with the fields
    `pip_to_poetry.py` reads.  `dependencies` models
    `.get("dependencies", [])` (an absent key behaves as the empty list);
    `optional_dev` is the `dev` entry of `optional-dependencies` when that
    entry is present (`get_dev_dependencies` consults nothing else of the
    `optional-dependencies` table). -/
structure PipProjectMeta where
  name : List Char
  version : List Char
  description : List Char
  authors : List (List Char)
  license : Option (List Char)
  dependencies : List (List Char)
  optional_dev : Option (List (List Char))

/-- A parsed pip-form source document as read by `pip_to_poetry.py`:
    the `project` table plus the top-level `tool` table (when present),
    which is what `get_packages` and the tool-copy loop consult. -/
structure PipDoc where
  project : PipProjectMeta
  tool : Option (List (List Char × TVal))

namespace PipToPoetry

/-- Embedding of `convert_version` from `pip_to_poetry.py`: converts a
    pip version constraint string to a Poetry specifier. -/
def convert_version (pip_version : List Char) : List Char :=
  if pip_version = [] ∨ pip_version = starK then
    starK
  else if containsSub eqeqK pip_version then
    replaceL eqeqK [] pip_version
  else if containsSub geK pip_version && containsSub ltK pip_version then
    caretK ++ replaceL geK [] ((splitOnL commaK pip_version).headD [])
  else
    pip_version

/-- The loop body shared verbatim by `get_dependencies` and
    `get_dev_dependencies`: split one dependency string into its name and
    version parts (`dep.split(">=") if ">=" in dep else dep.split("==")`,
    then `name, *version` unpacking) and produce the mapping entry
    `(name.strip(), convert_version(">=".join(version).strip()) if version
    else "*")`. -/
def depEntry (dep : List Char) : List Char × List Char :=
  let parts := if containsSub geK dep then splitOnL geK dep else splitOnL eqeqK dep
  (pyStrip (parts.headD []),
   if parts.tail = [] then starK
   else convert_version (pyStrip (joinSepL geK parts.tail)))

/-- Embedding of `get_dependencies` from `pip_to_poetry.py`: builds the
    Poetry dependencies mapping from the pip dependency list. -/
def get_dependencies (pm : PipProjectMeta) : List (List Char × List Char) :=
  pm.dependencies.foldl
    (fun d dep => dictInsert d (depEntry dep).1 (depEntry dep).2) []

/-- Embedding of `get_dev_dependencies` from `pip_to_poetry.py`: the same
    loop over `optional-dependencies["dev"]` when that entry exists. -/
def get_dev_dependencies (pm : PipProjectMeta) : List (List Char × List Char) :=
  match pm.optional_dev with
  | some devs =>
    devs.foldl (fun d dep => dictInsert d (depEntry dep).1 (depEntry dep).2) []
  | none => []

/-- Embedding of `get_packages` from `pip_to_poetry.py` (its parameter is the
    whole original document).  `none` models the KeyError on a missing
    `where` key and the IndexError on an empty `where` list; intermediate
    values of a shape other than a table (or a non-array `where`), which the
    claims never exercise and Python would fault on or substring-match, are
    modelled as `none` as well. -/
def get_packages (d : PipDoc) : Option (List TVal) :=
  match d.tool with
  | none => some []
  | some tool =>
    match lookupKV setuptoolsK tool with
    | none => some []
    | some (TVal.tbl st) =>
      match lookupKV packagesK st with
      | none => some []
      | some (TVal.tbl pk) =>
        match lookupKV findK pk with
        | none => some []
        | some (TVal.tbl fd) =>
          match lookupKV whereK fd with
          | some (TVal.arr (w :: _)) =>
            some [TVal.tbl [(includeK, TVal.s docktunaK), (fromK, w)]]
          | _ => none
        | some _ => some []
      | some _ => some []
    | some _ => none

/-- The Poetry dependencies table of `create_poetry_metadata`: the dict
    literal `python ↦ ^3.11` updated with every converted dependency in
    order. -/
def poetryDepsTbl (pm : PipProjectMeta) : Doc :=
  (get_dependencies pm).foldl (fun t p => dictInsert t p.1 (TVal.s p.2))
    [(pythonK, TVal.s caret311K)]

/-- The `tool.poetry` dictionary literal of `create_poetry_metadata`, before
    the conditional `group` and `packages` assignments. -/
def poetry_base (pm : PipProjectMeta) : Doc :=
  [(nameK, TVal.s pm.name),
   (versionK, TVal.s pm.version),
   (descriptionK, TVal.s pm.description),
   (authorsK, TVal.arr (pm.authors.map TVal.s)),
   (licenseK, TVal.s (pm.license.getD [])),
   (dependenciesK, TVal.tbl (poetryDepsTbl pm))]

/-- The `tool.poetry` dictionary after the `if dev_dependencies:`
    assignment. -/
def poetry_with_group (pm : PipProjectMeta) : Doc :=
  if get_dev_dependencies pm ≠ [] then
    dictInsert (poetry_base pm) groupK
      (TVal.tbl [(devK, TVal.tbl
        [(dependenciesK, TVal.tbl
          ((get_dev_dependencies pm).map (fun p => (p.1, TVal.s p.2))))])])
  else poetry_base pm

/-- The `tool.poetry` dictionary after the `if packages:` assignment. -/
def poetry_full (pm : PipProjectMeta) (packages : List TVal) : Doc :=
  match packages with
  | [] => poetry_with_group pm
  | _ :: _ => dictInsert (poetry_with_group pm) packagesK (TVal.arr packages)

/-- The top-level `tool` table of `create_poetry_metadata`: the built
    `poetry` entry, then every source tool section other than `setuptools`
    copied over in order. -/
def tool_table (pm : PipProjectMeta) (original_toml : PipDoc)
    (packages : List TVal) : Doc :=
  (original_toml.tool.getD []).foldl
    (fun t p => if p.1 = setuptoolsK then t else dictInsert t p.1 p.2)
    [(poetryK, TVal.tbl (poetry_full pm packages))]

/-- The fixed `build-system` table emitted by `create_poetry_metadata`. -/
def poetry_build_system : Doc :=
  [(requiresK, TVal.arr [TVal.s "poetry-core".data]),
   (buildBackendK, TVal.s "poetry.core.masonry.api".data)]

/-- Embedding of `create_poetry_metadata` from `pip_to_poetry.py`: the
    Poetry-form output document, retaining every source `tool` section other
    than `tool.setuptools`. -/
def create_poetry_metadata (pm : PipProjectMeta) (original_toml : PipDoc) :
    Option Doc :=
  match get_packages original_toml with
  | none => none
  | some packages =>
    some [(toolK, TVal.tbl (tool_table pm original_toml packages)),
          (buildSystemK, TVal.tbl poetry_build_system)]

end PipToPoetry

/-- The input read by the standalone script `old_pip_to_poetry.py`: the
    fields it extracts from the pip-form document, with `.get` defaults
    already folded in (`dev` is `optional-dependencies.get("dev", [])`). -/
structure OldProjectMetadata where
  name : List Char
  version : List Char
  description : List Char
  authors : List (List Char)
  dependencies : List (List Char)
  dev : List (List Char)

namespace OldPipToPoetry

/-- One iteration of the dependency loops in `old_pip_to_poetry.py`:
    a dependency containing `==` is split at it into exactly a name and a
    version (`none` models the ValueError when the two-element tuple
    unpacking fails), anything else maps the whole string to `*`. -/
def old_convert_dep (d : List (List Char × List Char)) (dep : List Char) :
    Option (List (List Char × List Char)) :=
  if containsSub eqeqK dep then
    match splitOnL eqeqK dep with
    | [n, v] => some (dictInsert d n v)
    | _ => none
  else
    some (dictInsert d dep starK)

/-- The dependency loops of `old_pip_to_poetry.py`, folded over a list. -/
def oldDepsLoop : List (List Char × List Char) → List (List Char) →
    Option (List (List Char × List Char))
  | d, [] => some d
  | d, dep :: rest =>
    match old_convert_dep d dep with
    | none => none
    | some d2 => oldDepsLoop d2 rest

/-- Embedding of the document built by `old_pip_to_poetry.py` (the
    `poetry_pyproject` dictionary after both dependency loops ran).  When
    there are no dev dependencies the `group` key is still present, bound to
    an empty table. -/
def poetry_pyproject (m : OldProjectMetadata) : Option Doc :=
  match oldDepsLoop [(pythonK, caret311K)] m.dependencies with
  | none => none
  | some deps =>
    match (if m.dev ≠ [] then oldDepsLoop [] m.dev else some []) with
    | none => none
    | some devdeps =>
      let groupVal : TVal :=
        if m.dev ≠ [] then
          TVal.tbl [(devK, TVal.tbl
            [(dependenciesK, TVal.tbl
              (devdeps.map (fun p => (p.1, TVal.s p.2))))])]
        else TVal.tbl []
      some [(toolK, TVal.tbl
              [(poetryK, TVal.tbl
                [(nameK, TVal.s m.name),
                 (versionK, TVal.s m.version),
                 (descriptionK, TVal.s m.description),
                 (authorsK, TVal.arr (m.authors.map TVal.s)),
                 (dependenciesK, TVal.tbl
                   (deps.map (fun p => (p.1, TVal.s p.2)))),
                 (groupK, groupVal)])]),
            (buildSystemK, TVal.tbl
              [(requiresK, TVal.arr [TVal.s "poetry-core".data]),
               (buildBackendK, TVal.s "poetry.core.masonry.api".data)])]

end OldPipToPoetry

/-- Verification-side accessor: the `tool.poetry` table of an output
    document. -/
def toolPoetryOf (out : Doc) : Option Doc :=
  match lookupKV toolK out with
  | some (TVal.tbl t) =>
    match lookupKV poetryK t with
    | some (TVal.tbl p) => some p
    | _ => none
  | _ => none

/-- A small pip-form `project` table whose dependency list is the range
    dependency from the spec example. -/
def pipMetaNumpy : PipProjectMeta :=
  { name := "demo".data, version := "0.1.0".data,
    description := "a demo".data, authors := ["Ada".data],
    license := some "MIT".data,
    dependencies := ["numpy>=1.20.0,<2.0.0".data],
    optional_dev := none }

/-- A pip-form `project` table with a dependency string containing both
    operators. -/
def pipMetaMixedOps : PipProjectMeta :=
  { name := "demo".data, version := "0.1.0".data,
    description := "a demo".data, authors := ["Ada".data],
    license := none,
    dependencies := ["x==1>=2".data],
    optional_dev := none }

/-- A pip-form document with no top-level `tool` table. -/
def pipDocPlain : PipDoc :=
  { project := pipMetaNumpy, tool := none }

/-- A pip-form document whose `tool.setuptools` table declares a
    package-discovery root, next to an unrelated `tool.ruff` section. -/
def pipDocFind : PipDoc :=
  { project := pipMetaNumpy,
    tool := some
      [("setuptools".data, TVal.tbl
        [("packages".data, TVal.tbl
          [("find".data, TVal.tbl
            [("where".data, TVal.arr [TVal.s "src".data])])])]),
       ("ruff".data, TVal.tbl [("line-length".data, TVal.s "88".data)])] }

/-- A small Poetry metadata table without a dev group. -/
def poetryMetaBasic : PoetryMetadata :=
  { name := "demo".data, version := "0.1.0".data,
    description := "a demo".data, authors := ["Ada".data],
    license := some "MIT".data,
    dependencies := [("python".data, "^3.11".data), ("numpy".data, "^1.20.0".data)],
    group := none }

/-- A Poetry metadata table whose dev group contains a `python` entry. -/
def poetryMetaDevPython : PoetryMetadata :=
  { name := "demo".data, version := "0.1.0".data,
    description := "a demo".data, authors := ["Ada".data],
    license := none,
    dependencies := [("requests".data, "^2.31.0".data)],
    group := some (some [("python".data, "^3.11".data)]) }

/-- A Poetry-form source document carrying an unrelated `tool.black`
    section. -/
def poetryDocWithBlack : PoetryDoc :=
  { other_tools := [("black".data, TVal.tbl [("line-length".data, TVal.s "88".data)])],
    poetry := poetryMetaBasic,
    other_top := [] }

/-- The input of `old_pip_to_poetry.py` for a document with no dev
    dependencies. -/
def oldMetaBasic : OldProjectMetadata :=
  { name := "demo".data, version := "0.1.0".data,
    description := "a demo".data, authors := ["Ada".data],
    dependencies := ["requests==2.31.0".data, "flask".data],
    dev := [] }

end PyProject

namespace PyProject

theorem isPfx_nil (s : List Char) : isPfx [] s = true := by
  cases s <;> rfl

theorem isPfx_append_self (p t : List Char) : isPfx p (p ++ t) = true := by
  induction p with
  | nil => exact isPfx_nil t
  | cons c cs ih => simp [isPfx, ih]

theorem eq_append_of_isPfx :
    ∀ (p s : List Char), isPfx p s = true → ∃ t, s = p ++ t := by
  intro p
  induction p with
  | nil => intro s _; exact ⟨s, rfl⟩
  | cons c cs ih =>
    intro s hs
    cases s with
    | nil => simp [isPfx] at hs
    | cons d ds =>
      simp only [isPfx, Bool.and_eq_true, decide_eq_true_eq] at hs
      obtain ⟨t, ht⟩ := ih ds hs.2
      exact ⟨t, by simp [hs.1, ht]⟩

theorem containsSub_of_isPfx {pat s : List Char} (h : isPfx pat s = true) :
    containsSub pat s = true := by
  cases s <;> simp [containsSub, h]

theorem containsSub_head_not_mem (p : Char) (ps : List Char) :
    ∀ s : List Char, p ∉ s → containsSub (p :: ps) s = false := by
  intro s
  induction s with
  | nil => intro _; rfl
  | cons c rest ih =>
    intro h
    have hpc : ¬(p = c) := fun e => h (e ▸ List.mem_cons_self c rest)
    have hrest : p ∉ rest := fun hm => h (List.mem_cons_of_mem _ hm)
    simp [containsSub, isPfx, hpc, ih hrest]

theorem containsSub_singleton_of_mem {c : Char} {s : List Char} (h : c ∈ s) :
    containsSub [c] s = true := by
  induction s with
  | nil => exact absurd h (List.not_mem_nil c)
  | cons d rest ih =>
    rcases List.mem_cons.mp h with h1 | h2
    · simp [containsSub, isPfx, h1]
    · simp [containsSub, ih h2]

theorem containsSub_eqeq_gt (l : List Char) (h : '=' ∉ l) :
    containsSub eqeqK ('>' :: '=' :: l) = false := by
  have h1 : containsSub eqeqK l = false := containsSub_head_not_mem '=' ['='] l h
  have h2 : isPfx eqeqK ('=' :: l) = false := by
    cases l with
    | nil => rfl
    | cons c cs =>
      have : ¬('=' = c) := fun e => h (e ▸ List.mem_cons_self c cs)
      simp [eqeqK, isPfx, this]
  have h3 : isPfx eqeqK ('>' :: '=' :: l) = false := by
    simp [eqeqK, isPfx]
  simp [containsSub, h1, h2, h3]

theorem splitAtFirst_single (c : Char) (a b : List Char) (h : c ∉ a) :
    splitAtFirst [c] (a ++ c :: b) = some (a, b) := by
  induction a with
  | nil => simp [splitAtFirst, isPfx]
  | cons d a2 ih =>
    have hcd : ¬(c = d) := fun e => h (e ▸ List.mem_cons_self d a2)
    have ha2 : c ∉ a2 := fun hm => h (List.mem_cons_of_mem _ hm)
    simp [splitAtFirst, isPfx, hcd, ih ha2]

theorem splitAtFirst_append :
    ∀ (sep s pre post : List Char), splitAtFirst sep s = some (pre, post) →
      pre ++ sep ++ post = s := by
  intro sep s
  induction s with
  | nil => intro pre post h; simp [splitAtFirst] at h
  | cons c rest ih =>
    intro pre post h
    by_cases hg : sep ≠ [] ∧ isPfx sep (c :: rest) = true
    · rw [splitAtFirst, if_pos hg] at h
      obtain ⟨hpre, hpost⟩ := Prod.mk.injEq .. ▸ Option.some.injEq .. ▸ h
      obtain ⟨t, ht⟩ := eq_append_of_isPfx sep (c :: rest) hg.2
      have hlen : sep.length - 1 + 1 = sep.length := by
        cases sep with
        | nil => exact absurd rfl hg.1
        | cons _ _ => simp
      have hdrop : List.drop (sep.length - 1) rest = t := by
        have : List.drop sep.length (c :: rest) = t := by
          rw [ht, List.drop_left]
        rw [← hlen, List.drop_succ_cons] at this
        exact this
      rw [← hpre, ← hpost, hdrop, ht]
      simp
    · rw [splitAtFirst, if_neg hg] at h
      cases hrest : splitAtFirst sep rest with
      | none => rw [hrest] at h; simp at h
      | some pp =>
        rw [hrest] at h
        simp only [Option.map_some', Option.some.injEq] at h
        obtain ⟨hpre, hpost⟩ := Prod.mk.injEq .. ▸ h
        have := ih pp.1 pp.2 (by rw [hrest])
        rw [← hpre, ← hpost]
        simp only [List.cons_append]
        rw [this]

theorem splitAtFirst_length :
    ∀ (sep s pre post : List Char), splitAtFirst sep s = some (pre, post) →
      post.length < s.length := by
  intro sep s
  induction s with
  | nil => intro pre post h; simp [splitAtFirst] at h
  | cons c rest ih =>
    intro pre post h
    by_cases hg : sep ≠ [] ∧ isPfx sep (c :: rest) = true
    · rw [splitAtFirst, if_pos hg] at h
      obtain ⟨-, hpost⟩ := Prod.mk.injEq .. ▸ Option.some.injEq .. ▸ h
      rw [← hpost]
      simp only [List.length_drop, List.length_cons]
      omega
    · rw [splitAtFirst, if_neg hg] at h
      cases hrest : splitAtFirst sep rest with
      | none => rw [hrest] at h; simp at h
      | some pp =>
        rw [hrest] at h
        simp only [Option.map_some', Option.some.injEq] at h
        obtain ⟨-, hpost⟩ := Prod.mk.injEq .. ▸ h
        have := ih pp.1 pp.2 (by rw [hrest])
        rw [← hpost]
        simp only [List.length_cons]
        omega

theorem containsSub_eq_isSome (sep : List Char) (hne : sep ≠ []) :
    ∀ s : List Char, containsSub sep s = (splitAtFirst sep s).isSome := by
  intro s
  induction s with
  | nil =>
    cases sep with
    | nil => exact absurd rfl hne
    | cons p ps => rfl
  | cons c rest ih =>
    by_cases hg : isPfx sep (c :: rest) = true
    · simp [containsSub, splitAtFirst, hg, hne]
    · have hg2 : ¬(sep ≠ [] ∧ isPfx sep (c :: rest) = true) := fun h => hg h.2
      simp only [containsSub, splitAtFirst, if_neg hg2]
      have hfalse : isPfx sep (c :: rest) = false := Bool.eq_false_iff.mpr hg
      rw [hfalse, Bool.false_or, ih]
      cases splitAtFirst sep rest <;> rfl

theorem splitOnGo_ne_nil (sep : List Char) :
    ∀ (f : Nat) (s : List Char), splitOnGo sep f s ≠ [] := by
  intro f
  induction f with
  | zero => intro s; simp [splitOnGo]
  | succ f ih =>
    intro s
    cases s with
    | nil => simp [splitOnGo]
    | cons c rest =>
      simp only [splitOnGo]
      split
      · simp
      · split
        · simp
        · simp

theorem splitOnGo_fuel (sep : List Char) :
    ∀ (f g : Nat) (s : List Char), s.length < f → s.length < g →
      splitOnGo sep f s = splitOnGo sep g s := by
  intro f
  induction f with
  | zero => intro g s hf _; omega
  | succ f ih =>
    intro g s hf hg
    cases g with
    | zero => omega
    | succ g =>
      cases s with
      | nil => rfl
      | cons c rest =>
        simp only [splitOnGo]
        by_cases h : sep ≠ [] ∧ isPfx sep (c :: rest) = true
        · rw [if_pos h, if_pos h,
            ih g (List.drop (sep.length - 1) rest)
              (by simp only [List.length_drop]; simp at hf; omega)
              (by simp only [List.length_drop]; simp at hg; omega)]
        · rw [if_neg h, if_neg h,
            ih g rest (by simp at hf; omega) (by simp at hg; omega)]

theorem splitOnL_ne_nil (sep s : List Char) : splitOnL sep s ≠ [] :=
  splitOnGo_ne_nil sep (s.length + 1) s

theorem splitOnGo_of_first (sep : List Char) :
    ∀ (f : Nat) (s pre post : List Char), s.length < f →
      splitAtFirst sep s = some (pre, post) →
      splitOnGo sep f s = pre :: splitOnL sep post := by
  intro f
  induction f with
  | zero => intro s pre post hf _; omega
  | succ f ih =>
    intro s pre post hf hsp
    cases s with
    | nil => simp [splitAtFirst] at hsp
    | cons c rest =>
      simp only [splitOnGo]
      by_cases h : sep ≠ [] ∧ isPfx sep (c :: rest) = true
      · rw [splitAtFirst, if_pos h] at hsp
        obtain ⟨hpre, hpost⟩ := Prod.mk.injEq .. ▸ Option.some.injEq .. ▸ hsp
        rw [if_pos h, ← hpre, ← hpost]
        have hlen : (List.drop (sep.length - 1) rest).length < f := by
          simp only [List.length_drop]
          simp at hf
          omega
        rw [splitOnL, splitOnGo_fuel sep f ((List.drop (sep.length - 1) rest).length + 1)
          (List.drop (sep.length - 1) rest) hlen (by omega)]
      · rw [splitAtFirst, if_neg h] at hsp
        cases hrest : splitAtFirst sep rest with
        | none => rw [hrest] at hsp; simp at hsp
        | some pp =>
          rw [hrest] at hsp
          simp only [Option.map_some', Option.some.injEq] at hsp
          obtain ⟨hpre, hpost⟩ := Prod.mk.injEq .. ▸ hsp
          rw [if_neg h, ih rest pp.1 pp.2 (by simp at hf; omega) (by rw [hrest])]
          rw [← hpre, ← hpost]

theorem splitOnL_of_first {sep s pre post : List Char}
    (h : splitAtFirst sep s = some (pre, post)) :
    splitOnL sep s = pre :: splitOnL sep post :=
  splitOnGo_of_first sep (s.length + 1) s pre post (by omega) h

theorem splitOnGo_of_first_none (sep : List Char) :
    ∀ (f : Nat) (s : List Char), s.length < f →
      splitAtFirst sep s = none → splitOnGo sep f s = [s] := by
  intro f
  induction f with
  | zero => intro s hf _; omega
  | succ f ih =>
    intro s hf hsp
    cases s with
    | nil => rfl
    | cons c rest =>
      simp only [splitOnGo]
      by_cases h : sep ≠ [] ∧ isPfx sep (c :: rest) = true
      · rw [splitAtFirst, if_pos h] at hsp
        simp at hsp
      · rw [splitAtFirst, if_neg h] at hsp
        have hrest : splitAtFirst sep rest = none := by
          cases hr : splitAtFirst sep rest with
          | none => rfl
          | some pp => rw [hr] at hsp; simp at hsp
        rw [if_neg h, ih rest (by simp at hf; omega) hrest]

theorem splitOnL_of_first_none {sep s : List Char}
    (h : splitAtFirst sep s = none) : splitOnL sep s = [s] :=
  splitOnGo_of_first_none sep (s.length + 1) s (by omega) h

theorem splitOnL_no_occ {sep s : List Char} (hne : sep ≠ [])
    (h : containsSub sep s = false) : splitOnL sep s = [s] := by
  apply splitOnL_of_first_none
  have := containsSub_eq_isSome sep hne s
  rw [h] at this
  cases hsp : splitAtFirst sep s with
  | none => rfl
  | some pp => rw [hsp] at this; simp at this

theorem joinSepL_splitOnL_aux (sep : List Char) :
    ∀ (n : Nat) (s : List Char), s.length ≤ n →
      joinSepL sep (splitOnL sep s) = s := by
  intro n
  induction n with
  | zero =>
    intro s hs
    have : s = [] := List.length_eq_zero.mp (Nat.le_zero.mp hs)
    subst this
    rfl
  | succ n ih =>
    intro s hs
    cases hsp : splitAtFirst sep s with
    | none => rw [splitOnL_of_first_none hsp]; rfl
    | some pp =>
      obtain ⟨pre, post⟩ := pp
      rw [splitOnL_of_first hsp]
      have hne := splitOnL_ne_nil sep post
      cases hL : splitOnL sep post with
      | nil => exact absurd hL hne
      | cons l0 ls =>
        have hjoin : joinSepL sep (splitOnL sep post) = post := by
          apply ih
          have := splitAtFirst_length sep s pre post hsp
          omega
        rw [hL] at hjoin
        have : joinSepL sep (pre :: l0 :: ls) = pre ++ sep ++ joinSepL sep (l0 :: ls) := rfl
        rw [this, hjoin]
        exact splitAtFirst_append sep s pre post hsp

theorem joinSepL_splitOnL (sep s : List Char) :
    joinSepL sep (splitOnL sep s) = s :=
  joinSepL_splitOnL_aux sep s.length s le_rfl

theorem replaceGo_no_occ (p : Char) (ps repl : List Char) :
    ∀ (f : Nat) (s : List Char), p ∉ s → replaceGo (p :: ps) repl f s = s := by
  intro f
  induction f with
  | zero => intro s _; rfl
  | succ f ih =>
    intro s hs
    cases s with
    | nil => rfl
    | cons c rest =>
      have hpc : ¬(p = c) := fun e => hs (e ▸ List.mem_cons_self c rest)
      have hg : ¬((p :: ps) ≠ [] ∧ isPfx (p :: ps) (c :: rest) = true) := by
        intro hcontra
        have := hcontra.2
        simp [isPfx, hpc] at this
      simp only [replaceGo, if_neg hg]
      rw [ih rest (fun hm => hs (List.mem_cons_of_mem _ hm))]

theorem replaceL_no_occ {p : Char} {ps repl s : List Char} (h : p ∉ s) :
    replaceL (p :: ps) repl s = s :=
  replaceGo_no_occ p ps repl (s.length + 1) s h

theorem replaceL_strip_self (p : Char) (ps v : List Char) (h : p ∉ v) :
    replaceL (p :: ps) [] ((p :: ps) ++ v) = v := by
  have hg : (p :: ps) ≠ [] ∧ isPfx (p :: ps) (p :: (ps ++ v)) = true :=
    ⟨by simp, isPfx_append_self (p :: ps) v⟩
  have hdrop : List.drop ((p :: ps).length - 1) (ps ++ v) = v := by
    simp only [List.length_cons, Nat.add_sub_cancel]
    exact List.drop_left ps v
  have hquant : ∀ f : Nat, v.length < f →
      replaceGo (p :: ps) [] f (p :: (ps ++ v)) = v := by
    intro f hf
    cases f with
    | zero => omega
    | succ f2 =>
      show (if (p :: ps) ≠ [] ∧ isPfx (p :: ps) (p :: (ps ++ v)) = true then
          [] ++ replaceGo (p :: ps) [] f2 (List.drop ((p :: ps).length - 1) (ps ++ v))
        else p :: replaceGo (p :: ps) [] f2 (ps ++ v)) = v
      rw [if_pos hg, hdrop, List.nil_append]
      exact replaceGo_no_occ p ps [] f2 v h
  show replaceGo (p :: ps) [] (((p :: ps) ++ v).length + 1) ((p :: ps) ++ v) = v
  have hshape : (p :: ps) ++ v = p :: (ps ++ v) := rfl
  rw [hshape]
  exact hquant _ (by simp [List.length_append]; omega)

theorem pyStrip_no_space {s : List Char} (h : ∀ c ∈ s, isPySpace c = false) :
    pyStrip s = s := by
  have hdrop : ∀ t : List Char, (∀ c ∈ t, isPySpace c = false) →
      t.dropWhile isPySpace = t := by
    intro t ht
    cases t with
    | nil => rfl
    | cons c rest =>
      rw [List.dropWhile_cons, ht c (List.mem_cons_self c rest)]
      simp
  unfold pyStrip
  rw [hdrop s h, hdrop s.reverse (fun c hc => h c (List.mem_reverse.mp hc)),
    List.reverse_reverse]

theorem digit_facts : ∀ c ∈ digits09, isPySpace c = false ∧ isDigitCh c = true ∧
    ¬(c = '-') ∧ ¬(c = '+') ∧ ¬(c = '=') ∧ ¬(c = ',') ∧ ¬(c = '<') ∧
    ¬(c = '>') ∧ ¬(c = '.') ∧ ¬(c = '*') := by decide

theorem pyInt_digits (s : List Char) (hne : s ≠ [])
    (h : ∀ c ∈ s, c ∈ digits09) : pyInt s = some ((digitsVal s : Int)) := by
  have hstrip : pyStrip s = s :=
    pyStrip_no_space (fun c hc => (digit_facts c (h c hc)).1)
  cases s with
  | nil => exact absurd rfl hne
  | cons c rest =>
    have hc := digit_facts c (h c (List.mem_cons_self c rest))
    have hall : (c :: rest).all isDigitCh = true := by
      rw [List.all_eq_true]
      intro x hx
      exact (digit_facts x (h x hx)).2.1
    simp only [pyInt, hstrip]
    rw [if_neg hc.2.2.1, if_neg hc.2.2.2.1, if_pos hall]

theorem digitCh_mem (d : Nat) (h : d < 10) : digitCh d ∈ digits09 := by
  interval_cases d <;> decide

theorem natToDigits_digits :
    ∀ (f n : Nat) (acc : List Char), (∀ c ∈ acc, c ∈ digits09) →
      ∀ c ∈ natToDigits f n acc, c ∈ digits09 := by
  intro f
  induction f with
  | zero => intro n acc hacc c hc; exact hacc c hc
  | succ f ih =>
    intro n acc hacc c hc
    simp only [natToDigits] at hc
    by_cases hn : n < 10
    · rw [if_pos hn] at hc
      rcases List.mem_cons.mp hc with h1 | h2
      · exact h1 ▸ digitCh_mem n hn
      · exact hacc c h2
    · rw [if_neg hn] at hc
      refine ih (n / 10) _ ?_ c hc
      intro x hx
      rcases List.mem_cons.mp hx with h1 | h2
      · exact h1 ▸ digitCh_mem (n % 10) (Nat.mod_lt n (by omega))
      · exact hacc x h2

theorem natRepr_digits (n : Nat) : ∀ c ∈ natRepr n, c ∈ digits09 :=
  natToDigits_digits (n + 1) n [] (by simp)

theorem pyIntStr_ofNat (k : Nat) : pyIntStr (k : Int) = natRepr k := by
  unfold pyIntStr
  rw [if_neg (by omega), Int.natAbs_ofNat]

end PyProject

namespace PyProject

theorem cvs_star : PoetryToPip.convert_version_specifier starK = some [] := rfl

theorem cvs_caret {base maj : List Char} {rest : List (List Char)} {m : Int}
    (hsplit : splitOnL dotK base = maj :: rest) (hint : pyInt maj = some m) :
    PoetryToPip.convert_version_specifier ('^' :: base) =
      some (geK ++ base ++ commaLtK ++ pyIntStr (m + 1) ++ dot00K) := by
  unfold PoetryToPip.convert_version_specifier
  rw [if_neg (by simp [starK]), if_pos (by simp [caretK, isPfx])]
  simp only [List.drop_succ_cons, List.drop_zero]
  rw [hsplit]
  simp only [hint]

theorem cvs_caret_badint {base maj : List Char} {rest : List (List Char)}
    (hsplit : splitOnL dotK base = maj :: rest) (hint : pyInt maj = none) :
    PoetryToPip.convert_version_specifier ('^' :: base) = none := by
  unfold PoetryToPip.convert_version_specifier
  rw [if_neg (by simp [starK]), if_pos (by simp [caretK, isPfx])]
  simp only [List.drop_succ_cons, List.drop_zero]
  rw [hsplit]
  simp only [hint]

theorem cvs_tilde_single {base maj : List Char}
    (hsplit : splitOnL dotK base = [maj]) :
    PoetryToPip.convert_version_specifier ('~' :: base) = none := by
  unfold PoetryToPip.convert_version_specifier
  rw [if_neg (by simp [starK]), if_neg (by simp [caretK, isPfx]),
    if_pos (by simp [tildeK, isPfx])]
  simp only [List.drop_succ_cons, List.drop_zero]
  rw [hsplit]

theorem cvs_tilde_empty {base maj : List Char} {rest : List (List Char)}
    (hsplit : splitOnL dotK base = maj :: [] :: rest) :
    PoetryToPip.convert_version_specifier ('~' :: base) =
      some (geK ++ base ++ commaLtK ++ maj ++ dot00K) := by
  unfold PoetryToPip.convert_version_specifier
  rw [if_neg (by simp [starK]), if_neg (by simp [caretK, isPfx]),
    if_pos (by simp [tildeK, isPfx])]
  simp only [List.drop_succ_cons, List.drop_zero]
  rw [hsplit]
  simp

theorem cvs_tilde_minor {base maj minor : List Char} {rest : List (List Char)}
    {mi : Int} (hsplit : splitOnL dotK base = maj :: minor :: rest)
    (hm : minor ≠ []) (hint : pyInt minor = some mi) :
    PoetryToPip.convert_version_specifier ('~' :: base) =
      some (geK ++ base ++ commaLtK ++ maj ++ ('.' :: pyIntStr (mi + 1)) ++ dot0K) := by
  unfold PoetryToPip.convert_version_specifier
  rw [if_neg (by simp [starK]), if_neg (by simp [caretK, isPfx]),
    if_pos (by simp [tildeK, isPfx])]
  simp only [List.drop_succ_cons, List.drop_zero]
  rw [hsplit]
  simp only [if_neg hm, hint]

theorem cvs_tilde_badint {base maj minor : List Char} {rest : List (List Char)}
    (hsplit : splitOnL dotK base = maj :: minor :: rest)
    (hm : minor ≠ []) (hint : pyInt minor = none) :
    PoetryToPip.convert_version_specifier ('~' :: base) = none := by
  unfold PoetryToPip.convert_version_specifier
  rw [if_neg (by simp [starK]), if_neg (by simp [caretK, isPfx]),
    if_pos (by simp [tildeK, isPfx])]
  simp only [List.drop_succ_cons, List.drop_zero]
  rw [hsplit]
  simp only [if_neg hm, hint]

theorem cvs_other {version : List Char} (h1 : version ≠ starK)
    (h2 : isPfx caretK version = false) (h3 : isPfx tildeK version = false) :
    PoetryToPip.convert_version_specifier version = some version := by
  unfold PoetryToPip.convert_version_specifier
  rw [if_neg h1, if_neg (by simp [h2]), if_neg (by simp [h3])]

theorem cv_range (v N : List Char)
    (hv : ∀ c ∈ v, c ∈ digits09 ∨ c = '.')
    (hN : ∀ c ∈ N, c ∈ digits09) :
    PipToPoetry.convert_version (geK ++ v ++ commaLtK ++ N ++ dot00K) =
      caretK ++ v := by
  have hvchar : ∀ c ∈ v, ¬(c = '=') ∧ ¬(c = ',') ∧ ¬(c = '>') := by
    intro c hc
    rcases hv c hc with hd | hdot
    · exact ⟨(digit_facts c hd).2.2.2.2.1, (digit_facts c hd).2.2.2.2.2.1,
        (digit_facts c hd).2.2.2.2.2.2.2.1⟩
    · subst hdot
      exact ⟨by decide, by decide, by decide⟩
  have hw : geK ++ v ++ commaLtK ++ N ++ dot00K =
      '>' :: '=' :: (v ++ ',' :: '<' :: (N ++ ['.', '0', '.', '0'])) := by
    simp [geK, commaLtK, dot00K]
  rw [hw]
  have hEq : ('=' : Char) ∉ v ++ ',' :: '<' :: (N ++ ['.', '0', '.', '0']) := by
    intro hm
    rcases List.mem_append.mp hm with h1 | h2
    · exact (hvchar '=' h1).1 rfl
    · rcases List.mem_cons.mp h2 with h3 | h4
      · exact absurd h3 (by decide)
      rcases List.mem_cons.mp h4 with h5 | h6
      · exact absurd h5 (by decide)
      rcases List.mem_append.mp h6 with h7 | h8
      · exact (digit_facts '=' (hN '=' h7)).2.2.2.2.1 rfl
      · exact absurd h8 (by decide)
  have hc2 : containsSub eqeqK ('>' :: '=' :: (v ++ ',' :: '<' :: (N ++ ['.', '0', '.', '0']))) = false :=
    containsSub_eqeq_gt _ hEq
  have hge : containsSub geK ('>' :: '=' :: (v ++ ',' :: '<' :: (N ++ ['.', '0', '.', '0']))) = true := by
    apply containsSub_of_isPfx
    exact isPfx_append_self geK (v ++ ',' :: '<' :: (N ++ ['.', '0', '.', '0']))
  have hlt : containsSub ltK ('>' :: '=' :: (v ++ ',' :: '<' :: (N ++ ['.', '0', '.', '0']))) = true := by
    apply containsSub_singleton_of_mem
    simp
  have hAcomma : (',' : Char) ∉ '>' :: '=' :: v := by
    intro hm
    rcases List.mem_cons.mp hm with h1 | h2
    · exact absurd h1 (by decide)
    rcases List.mem_cons.mp h2 with h3 | h4
    · exact absurd h3 (by decide)
    · exact (hvchar ',' h4).2.1 rfl
  have hfirst : splitAtFirst commaK
      ('>' :: '=' :: (v ++ ',' :: '<' :: (N ++ ['.', '0', '.', '0']))) =
      some ('>' :: '=' :: v, '<' :: (N ++ ['.', '0', '.', '0'])) :=
    splitAtFirst_single ',' ('>' :: '=' :: v) ('<' :: (N ++ ['.', '0', '.', '0'])) hAcomma
  have hhead : (splitOnL commaK
      ('>' :: '=' :: (v ++ ',' :: '<' :: (N ++ ['.', '0', '.', '0'])))).headD [] =
      '>' :: '=' :: v := by
    rw [splitOnL_of_first hfirst]
    rfl
  have hgt_v : ('>' : Char) ∉ v := fun hm => (hvchar '>' hm).2.2 rfl
  have hrepl : replaceL geK [] ('>' :: '=' :: v) = v :=
    replaceL_strip_self '>' ['='] v hgt_v
  unfold PipToPoetry.convert_version
  rw [if_neg (by simp [starK]), if_neg (by simp [hc2]),
    if_pos (by simp [hge, hlt]), hhead, hrepl]

theorem lookupKV_dictInsert_self {α : Type} (k : List Char) (v : α) :
    ∀ d : List (List Char × α), lookupKV k (dictInsert d k v) = some v := by
  have hmap : ∀ d : List (List Char × α),
      d.any (fun p => decide (p.1 = k)) = true →
      lookupKV k (d.map (fun p => if p.1 = k then (k, v) else p)) = some v := by
    intro d
    induction d with
    | nil => intro h; simp at h
    | cons p ps ih =>
      intro h
      by_cases hp : p.1 = k
      · simp [List.map_cons, if_pos hp, lookupKV]
      · have h2 : ps.any (fun p => decide (p.1 = k)) = true := by
          simp only [List.any_cons, Bool.or_eq_true] at h
          rcases h with h | h
          · simp [hp] at h
          · exact h
        simp only [List.map_cons, if_neg hp, lookupKV]
        exact ih h2
  have happ : ∀ d : List (List Char × α), (∀ p ∈ d, ¬(p.1 = k)) →
      lookupKV k (d ++ [(k, v)]) = some v := by
    intro d
    induction d with
    | nil => simp [lookupKV]
    | cons p ps ih =>
      intro h
      have hp := h p (List.mem_cons_self p ps)
      simp only [List.cons_append, lookupKV]
      rw [if_neg hp]
      exact ih (fun q hq => h q (List.mem_cons_of_mem _ hq))
  intro d
  unfold dictInsert
  by_cases h : d.any (fun p => decide (p.1 = k)) = true
  · rw [if_pos h]
    exact hmap d h
  · rw [if_neg h]
    refine happ d ?_
    intro p hp hcontra
    exact h (by rw [List.any_eq_true]; exact ⟨p, hp, by simp [hcontra]⟩)

theorem lookupKV_dictInsert_ne {α : Type} (k k2 : List Char) (v : α)
    (hne : k2 ≠ k) :
    ∀ d : List (List Char × α), lookupKV k2 (dictInsert d k v) = lookupKV k2 d := by
  have hmap : ∀ d : List (List Char × α),
      lookupKV k2 (d.map (fun p => if p.1 = k then (k, v) else p)) = lookupKV k2 d := by
    intro d
    induction d with
    | nil => rfl
    | cons p ps ih =>
      by_cases hp : p.1 = k
      · have hpk2 : ¬(k = k2) := fun e => hne e.symm
        have hpk2b : ¬(p.1 = k2) := by rw [hp]; exact fun e => hne e.symm
        simp only [List.map_cons, if_pos hp, lookupKV]
        rw [if_neg hpk2, if_neg hpk2b]
        exact ih
      · simp only [List.map_cons, if_neg hp, lookupKV]
        by_cases hq : p.1 = k2
        · rw [if_pos hq, if_pos hq]
        · rw [if_neg hq, if_neg hq]
          exact ih
  have happ : ∀ d : List (List Char × α),
      lookupKV k2 (d ++ [(k, v)]) = lookupKV k2 d := by
    intro d
    induction d with
    | nil =>
      simp only [List.nil_append, lookupKV]
      rw [if_neg (fun e => hne e.symm)]
    | cons p ps ih =>
      simp only [List.cons_append, lookupKV]
      by_cases hq : p.1 = k2
      · rw [if_pos hq, if_pos hq]
      · rw [if_neg hq, if_neg hq]
        exact ih
  intro d
  unfold dictInsert
  by_cases h : d.any (fun p => decide (p.1 = k)) = true
  · rw [if_pos h]
    exact hmap d
  · rw [if_neg h]
    exact happ d

theorem dictInsert_head_ne {α : Type} (p0 : List Char × α)
    (d : List (List Char × α)) (k : List Char) (v : α) (hne : ¬(p0.1 = k)) :
    ∃ d2, dictInsert (p0 :: d) k v = p0 :: d2 := by
  unfold dictInsert
  by_cases h : (p0 :: d).any (fun p => decide (p.1 = k)) = true
  · rw [if_pos h]
    refine ⟨List.map (fun p => if p.1 = k then (k, v) else p) d, ?_⟩
    simp [List.map_cons, if_neg hne]
  · rw [if_neg h]
    exact ⟨d ++ [(k, v)], by simp⟩

theorem foldl_lookup_preserve {α β : Type}
    (g : List (List Char × α) → β → List (List Char × α)) (k : List Char) :
    ∀ (l : List β) (d : List (List Char × α)),
      (∀ b ∈ l, ∀ t, lookupKV k (g t b) = lookupKV k t) →
      lookupKV k (l.foldl g d) = lookupKV k d := by
  intro l
  induction l with
  | nil => intro d _; rfl
  | cons b bs ih =>
    intro d h
    rw [List.foldl_cons, ih (g d b) (fun b2 hb2 t => h b2 (List.mem_cons_of_mem _ hb2) t),
      h b (List.mem_cons_self b bs) d]

theorem foldl_head_preserve {α β : Type}
    (g : List (List Char × α) → β → List (List Char × α)) (P : List Char × α) :
    ∀ (l : List β) (d2 : List (List Char × α)),
      (∀ b ∈ l, ∀ t : List (List Char × α), ∀ d3, t = P :: d3 → ∃ d4, g t b = P :: d4) →
      ∃ d5, l.foldl g (P :: d2) = P :: d5 := by
  intro l
  induction l with
  | nil => intro d2 _; exact ⟨d2, rfl⟩
  | cons b bs ih =>
    intro d2 h
    obtain ⟨d4, hd4⟩ := h b (List.mem_cons_self b bs) (P :: d2) d2 rfl
    rw [List.foldl_cons, hd4]
    exact ih d4 (fun b2 hb2 t d3 ht => h b2 (List.mem_cons_of_mem _ hb2) t d3 ht)

theorem mapMOpt_mem {α β : Type} (f : α → Option β) :
    ∀ (l : List α) (r : List β), mapMOpt f l = some r →
      ∀ b ∈ r, ∃ a ∈ l, f a = some b := by
  intro l
  induction l with
  | nil =>
    intro r h b hb
    simp only [mapMOpt, Option.some.injEq] at h
    rw [← h] at hb
    exact absurd hb (List.not_mem_nil b)
  | cons a as ih =>
    intro r h b hb
    cases hfa : f a with
    | none => rw [mapMOpt, hfa] at h; simp at h
    | some b0 =>
      cases hrest : mapMOpt f as with
      | none => rw [mapMOpt, hfa, hrest] at h; simp at h
      | some bs =>
        rw [mapMOpt, hfa, hrest] at h
        simp only [Option.some.injEq] at h
        rw [← h] at hb
        rcases List.mem_cons.mp hb with h1 | h2
        · exact ⟨a, List.mem_cons_self a as, h1 ▸ hfa⟩
        · obtain ⟨a2, ha2, hfa2⟩ := ih bs hrest b h2
          exact ⟨a2, List.mem_cons_of_mem _ ha2, hfa2⟩

end PyProject

namespace PyProject

theorem create_pip_metadata_eq (pm : PoetryMetadata)
    (deps devs : List (List Char))
    (h1 : PoetryToPip.get_dependencies pm = some deps)
    (h2 : PoetryToPip.get_dev_dependencies pm = some devs) :
    PoetryToPip.create_pip_metadata pm =
      some [(projectK, TVal.tbl (PoetryToPip.pip_project pm deps devs)),
            (buildSystemK, TVal.tbl PoetryToPip.pip_build_system)] := by
  unfold PoetryToPip.create_pip_metadata
  rw [h1, h2]

theorem lookupKV_pip_base_optDeps (pm : PoetryMetadata) (deps : List (List Char)) :
    lookupKV optDepsK (PoetryToPip.pip_project_base pm deps) = none := by
  unfold PoetryToPip.pip_project_base
  simp only [lookupKV]
  rw [if_neg (by decide), if_neg (by decide), if_neg (by decide),
    if_neg (by decide), if_neg (by decide)]

theorem lookupKV_pip_base_license (pm : PoetryMetadata) (deps : List (List Char)) :
    lookupKV licenseK (PoetryToPip.pip_project_base pm deps) = none := by
  unfold PoetryToPip.pip_project_base
  simp only [lookupKV]
  rw [if_neg (by decide), if_neg (by decide), if_neg (by decide),
    if_neg (by decide), if_neg (by decide)]

theorem lookupKV_pip_project_license (pm : PoetryMetadata)
    (deps devs : List (List Char)) :
    lookupKV licenseK (PoetryToPip.pip_project pm deps devs) = none := by
  unfold PoetryToPip.pip_project
  by_cases h : devs ≠ []
  · rw [if_pos h, lookupKV_dictInsert_ne optDepsK licenseK _ (by decide)]
    exact lookupKV_pip_base_license pm deps
  · rw [if_neg h]
    exact lookupKV_pip_base_license pm deps

theorem lookupKV_pip_project_optDeps_nil (pm : PoetryMetadata)
    (deps : List (List Char)) :
    lookupKV optDepsK (PoetryToPip.pip_project pm deps []) = none := by
  unfold PoetryToPip.pip_project
  rw [if_neg (by simp)]
  exact lookupKV_pip_base_optDeps pm deps

theorem lookupKV_pip_project_optDeps_cons (pm : PoetryMetadata)
    (deps devs : List (List Char)) (h : devs ≠ []) :
    lookupKV optDepsK (PoetryToPip.pip_project pm deps devs) =
      some (TVal.tbl [(devK, TVal.arr (devs.map TVal.s))]) := by
  unfold PoetryToPip.pip_project
  rw [if_pos h]
  exact lookupKV_dictInsert_self optDepsK _ _

theorem lookupKV_poetry_base_group (pm : PipProjectMeta) :
    lookupKV groupK (PipToPoetry.poetry_base pm) = none := by
  unfold PipToPoetry.poetry_base
  simp only [lookupKV]
  rw [if_neg (by decide), if_neg (by decide), if_neg (by decide),
    if_neg (by decide), if_neg (by decide), if_neg (by decide)]

theorem lookupKV_poetry_base_packages (pm : PipProjectMeta) :
    lookupKV packagesK (PipToPoetry.poetry_base pm) = none := by
  unfold PipToPoetry.poetry_base
  simp only [lookupKV]
  rw [if_neg (by decide), if_neg (by decide), if_neg (by decide),
    if_neg (by decide), if_neg (by decide), if_neg (by decide)]

theorem lookupKV_poetry_base_deps (pm : PipProjectMeta) :
    lookupKV dependenciesK (PipToPoetry.poetry_base pm) =
      some (TVal.tbl (PipToPoetry.poetryDepsTbl pm)) := by
  unfold PipToPoetry.poetry_base
  simp only [lookupKV]
  rw [if_neg (by decide), if_neg (by decide), if_neg (by decide),
    if_neg (by decide), if_neg (by decide), if_pos (by decide)]

theorem lookupKV_with_group_packages (pm : PipProjectMeta) :
    lookupKV packagesK (PipToPoetry.poetry_with_group pm) = none := by
  unfold PipToPoetry.poetry_with_group
  by_cases h : PipToPoetry.get_dev_dependencies pm ≠ []
  · rw [if_pos h, lookupKV_dictInsert_ne groupK packagesK _ (by decide)]
    exact lookupKV_poetry_base_packages pm
  · rw [if_neg h]
    exact lookupKV_poetry_base_packages pm

theorem lookupKV_with_group_group_nil (pm : PipProjectMeta)
    (h : PipToPoetry.get_dev_dependencies pm = []) :
    lookupKV groupK (PipToPoetry.poetry_with_group pm) = none := by
  unfold PipToPoetry.poetry_with_group
  rw [if_neg (by simp [h])]
  exact lookupKV_poetry_base_group pm

theorem lookupKV_with_group_deps (pm : PipProjectMeta) :
    lookupKV dependenciesK (PipToPoetry.poetry_with_group pm) =
      some (TVal.tbl (PipToPoetry.poetryDepsTbl pm)) := by
  unfold PipToPoetry.poetry_with_group
  by_cases h : PipToPoetry.get_dev_dependencies pm ≠ []
  · rw [if_pos h, lookupKV_dictInsert_ne groupK dependenciesK _ (by decide)]
    exact lookupKV_poetry_base_deps pm
  · rw [if_neg h]
    exact lookupKV_poetry_base_deps pm

theorem lookupKV_full_packages_nil (pm : PipProjectMeta) :
    lookupKV packagesK (PipToPoetry.poetry_full pm []) = none :=
  lookupKV_with_group_packages pm

theorem lookupKV_full_packages_cons (pm : PipProjectMeta) (w : TVal)
    (ws : List TVal) :
    lookupKV packagesK (PipToPoetry.poetry_full pm (w :: ws)) =
      some (TVal.arr (w :: ws)) :=
  lookupKV_dictInsert_self packagesK _ _

theorem lookupKV_full_group_nil (pm : PipProjectMeta) (pkgs : List TVal)
    (h : PipToPoetry.get_dev_dependencies pm = []) :
    lookupKV groupK (PipToPoetry.poetry_full pm pkgs) = none := by
  cases pkgs with
  | nil => exact lookupKV_with_group_group_nil pm h
  | cons w ws =>
    show lookupKV groupK
      (dictInsert (PipToPoetry.poetry_with_group pm) packagesK
        (TVal.arr (w :: ws))) = none
    rw [lookupKV_dictInsert_ne packagesK groupK _ (by decide)]
    exact lookupKV_with_group_group_nil pm h

theorem lookupKV_full_deps (pm : PipProjectMeta) (pkgs : List TVal) :
    lookupKV dependenciesK (PipToPoetry.poetry_full pm pkgs) =
      some (TVal.tbl (PipToPoetry.poetryDepsTbl pm)) := by
  cases pkgs with
  | nil => exact lookupKV_with_group_deps pm
  | cons w ws =>
    show lookupKV dependenciesK
      (dictInsert (PipToPoetry.poetry_with_group pm) packagesK
        (TVal.arr (w :: ws))) = _
    rw [lookupKV_dictInsert_ne packagesK dependenciesK _ (by decide)]
    exact lookupKV_with_group_deps pm

theorem lookupKV_tool_table_poetry (pm : PipProjectMeta) (d : PipDoc)
    (pkgs : List TVal) (hTool : ∀ p ∈ d.tool.getD [], ¬(p.1 = poetryK)) :
    lookupKV poetryK (PipToPoetry.tool_table pm d pkgs) =
      some (TVal.tbl (PipToPoetry.poetry_full pm pkgs)) := by
  unfold PipToPoetry.tool_table
  rw [foldl_lookup_preserve _ poetryK (d.tool.getD []) _ ?_]
  · simp [lookupKV]
  · intro b hb t
    by_cases hbs : b.1 = setuptoolsK
    · rw [if_pos hbs]
    · rw [if_neg hbs]
      exact lookupKV_dictInsert_ne b.1 poetryK b.2 (fun e => hTool b hb e.symm) t

theorem lookupKV_tool_table_setuptools (pm : PipProjectMeta) (d : PipDoc)
    (pkgs : List TVal) :
    lookupKV setuptoolsK (PipToPoetry.tool_table pm d pkgs) = none := by
  unfold PipToPoetry.tool_table
  rw [foldl_lookup_preserve _ setuptoolsK (d.tool.getD []) _ ?_]
  · simp only [lookupKV]
    rw [if_neg (by decide)]
  · intro b hb t
    by_cases hbs : b.1 = setuptoolsK
    · rw [if_pos hbs]
    · rw [if_neg hbs]
      exact lookupKV_dictInsert_ne b.1 setuptoolsK b.2 (fun e => hbs e.symm) t

theorem foldl_toolcopy_lookup :
    ∀ (tl : List (List Char × TVal)) (d0 : Doc) (k : List Char) (v : TVal),
      (tl.map Prod.fst).Nodup → (k, v) ∈ tl → ¬(k = setuptoolsK) →
      lookupKV k (tl.foldl
        (fun t p => if p.1 = setuptoolsK then t else dictInsert t p.1 p.2) d0) =
        some v := by
  intro tl
  induction tl with
  | nil => intro d0 k v _ hm _; exact absurd hm (List.not_mem_nil _)
  | cons p ps ih =>
    intro d0 k v hnd hm hks
    rw [List.map_cons, List.nodup_cons] at hnd
    rw [List.foldl_cons]
    rcases List.mem_cons.mp hm with he | hm2
    · have hp1 : p.1 = k := by rw [← he]
      have hp2 : p.2 = v := by rw [← he]
      have hstep : (if p.1 = setuptoolsK then d0 else dictInsert d0 p.1 p.2) =
          dictInsert d0 k v := by
        rw [if_neg (by rw [hp1]; exact hks), hp1, hp2]
      rw [hstep]
      have hknotin : ∀ q ∈ ps, ¬(q.1 = k) := by
        intro q hq hqk
        apply hnd.1
        rw [hp1, ← hqk]
        exact List.mem_map_of_mem Prod.fst hq
      rw [foldl_lookup_preserve _ k ps _ ?_]
      · exact lookupKV_dictInsert_self k v d0
      · intro b hb t
        by_cases hbs : b.1 = setuptoolsK
        · rw [if_pos hbs]
        · rw [if_neg hbs]
          exact lookupKV_dictInsert_ne b.1 k b.2
            (fun e => hknotin b hb e.symm) t
    · exact ih _ k v hnd.2 hm2 hks

theorem create_poetry_metadata_eq (pm : PipProjectMeta) (d : PipDoc)
    (pkgs : List TVal) (hgp : PipToPoetry.get_packages d = some pkgs) :
    PipToPoetry.create_poetry_metadata pm d =
      some [(toolK, TVal.tbl (PipToPoetry.tool_table pm d pkgs)),
            (buildSystemK, TVal.tbl PipToPoetry.poetry_build_system)] := by
  unfold PipToPoetry.create_poetry_metadata
  rw [hgp]

theorem toolPoetryOf_create (pm : PipProjectMeta) (d : PipDoc)
    (pkgs : List TVal) (out : Doc)
    (hp : PipToPoetry.get_packages d = some pkgs)
    (hTool : ∀ p ∈ d.tool.getD [], ¬(p.1 = poetryK))
    (hout : PipToPoetry.create_poetry_metadata pm d = some out) :
    toolPoetryOf out = some (PipToPoetry.poetry_full pm pkgs) := by
  have hlit := create_poetry_metadata_eq pm d pkgs hp
  rw [hout] at hlit
  have ho := (Option.some_inj.mp hlit).symm
  subst ho
  have houter : lookupKV toolK
      [(toolK, TVal.tbl (PipToPoetry.tool_table pm d pkgs)),
       (buildSystemK, TVal.tbl PipToPoetry.poetry_build_system)] =
      some (TVal.tbl (PipToPoetry.tool_table pm d pkgs)) := by
    simp [lookupKV]
  simp only [toolPoetryOf, houter, lookupKV_tool_table_poetry pm d pkgs hTool]

theorem foldl_dictInsert_keeps_key (k : List Char) :
    ∀ (l : List (List Char × List Char)) (d : Doc) (v : TVal),
      lookupKV k d = some v →
      ∃ w, lookupKV k (l.foldl (fun t p => dictInsert t p.1 (TVal.s p.2)) d) =
        some w := by
  intro l
  induction l with
  | nil => intro d v h; exact ⟨v, h⟩
  | cons p ps ih =>
    intro d v h
    rw [List.foldl_cons]
    by_cases hp : p.1 = k
    · exact ih _ (TVal.s p.2)
        (by rw [hp]; exact lookupKV_dictInsert_self k (TVal.s p.2) d)
    · exact ih _ v
        (by rw [lookupKV_dictInsert_ne p.1 k (TVal.s p.2) (fun e => hp e.symm) d]
            exact h)

theorem poetryDepsTbl_python_some (pm : PipProjectMeta) :
    ∃ w, lookupKV pythonK (PipToPoetry.poetryDepsTbl pm) = some w :=
  foldl_dictInsert_keeps_key pythonK (PipToPoetry.get_dependencies pm)
    [(pythonK, TVal.s caret311K)] (TVal.s caret311K) (by simp [lookupKV])

theorem poetryDepsTbl_head (pm : PipProjectMeta)
    (h : pythonK ∉ (PipToPoetry.get_dependencies pm).map Prod.fst) :
    ∃ d5, PipToPoetry.poetryDepsTbl pm =
      (pythonK, TVal.s caret311K) :: d5 := by
  unfold PipToPoetry.poetryDepsTbl
  apply foldl_head_preserve
  intro b hb t d3 ht
  subst ht
  apply dictInsert_head_ne
  intro he
  apply h
  have hmem : b.1 ∈ (PipToPoetry.get_dependencies pm).map Prod.fst :=
    List.mem_map_of_mem Prod.fst hb
  rw [← he] at hmem
  exact hmem

theorem write_shape (m : Doc) (out : Doc)
    (h : PoetryToPip.write_to_pyproject_toml m = some out) :
    out.map Prod.fst = [projectK, buildSystemK] := by
  haveI : Nonempty (List (List Char × TVal)) := ⟨[]⟩
  haveI : Nonempty TVal := ⟨TVal.tbl []⟩
  unfold PoetryToPip.write_to_pyproject_toml at h
  repeat' split at h
  all_goals try simp_all
  all_goals rw [← h]
  all_goals rfl

end PyProject

namespace PyProject

/-- C1: for every caret specifier `^X.Y.Z` whose three dotted components are
    nonempty digit strings, translating Poetry-to-pip with
    `convert_version_specifier` and then pip-to-Poetry with `convert_version`
    returns the original specifier string unchanged. -/
theorem claim_C1_caret_roundtrip (x y z : List Char)
    (hx : x ≠ []) (hy : y ≠ []) (hz : z ≠ [])
    (hdx : ∀ c ∈ x, c ∈ digits09) (hdy : ∀ c ∈ y, c ∈ digits09)
    (hdz : ∀ c ∈ z, c ∈ digits09) :
    Option.map PipToPoetry.convert_version
      (PoetryToPip.convert_version_specifier ('^' :: (x ++ '.' :: (y ++ '.' :: z)))) =
      some ('^' :: (x ++ '.' :: (y ++ '.' :: z))) := by
  have hdotx : ('.' : Char) ∉ x :=
    fun hm => (digit_facts '.' (hdx '.' hm)).2.2.2.2.2.2.2.2.1 rfl
  have hfirst : splitAtFirst dotK (x ++ '.' :: (y ++ '.' :: z)) =
      some (x, y ++ '.' :: z) :=
    splitAtFirst_single '.' x (y ++ '.' :: z) hdotx
  have hsplit : splitOnL dotK (x ++ '.' :: (y ++ '.' :: z)) =
      x :: splitOnL dotK (y ++ '.' :: z) :=
    splitOnL_of_first hfirst
  have hpy : pyInt x = some ((digitsVal x : Int)) := pyInt_digits x hx hdx
  have hcvs := cvs_caret hsplit hpy
  have hcast : ((digitsVal x : Int) + 1) = ((digitsVal x + 1 : Nat) : Int) := by
    push_cast
    ring
  rw [hcast, pyIntStr_ofNat] at hcvs
  rw [hcvs]
  simp only [Option.map_some']
  have hvchars : ∀ c ∈ x ++ '.' :: (y ++ '.' :: z), c ∈ digits09 ∨ c = '.' := by
    intro c hc
    rcases List.mem_append.mp hc with h1 | h2
    · exact Or.inl (hdx c h1)
    rcases List.mem_cons.mp h2 with h3 | h4
    · exact Or.inr h3
    rcases List.mem_append.mp h4 with h5 | h6
    · exact Or.inl (hdy c h5)
    rcases List.mem_cons.mp h6 with h7 | h8
    · exact Or.inr h7
    · exact Or.inl (hdz c h8)
  rw [cv_range (x ++ '.' :: (y ++ '.' :: z)) (natRepr (digitsVal x + 1)) hvchars
    (natRepr_digits _)]
  rfl

/-- Witness for C1 at the concrete caret specifier with components 1, 2, 3. -/
theorem claim_C1_caret_roundtrip_witness :
    Option.map PipToPoetry.convert_version
      (PoetryToPip.convert_version_specifier
        ('^' :: (['1'] ++ '.' :: (['2'] ++ '.' :: ['3'])))) =
      some ('^' :: (['1'] ++ '.' :: (['2'] ++ '.' :: ['3']))) :=
  claim_C1_caret_roundtrip ['1'] ['2'] ['3'] (by decide) (by decide) (by decide)
    (by decide) (by decide) (by decide)

/-- C2: evaluating the pip-to-Poetry reshaper at the failing input shows that
    the dependency string numpy>=1.20.0,<2.0.0 is mapped to the entry
    numpy ↦ 1.20.0,<2.0.0, not to the caret entry numpy ↦ ^1.20.0 the claim
    states: the split at >= removes the operator, the one-element ">=".join
    does not restore it, and convert_version's range branch therefore never
    sees a >=. -/
theorem claim_C2_numpy_entry :
    PipToPoetry.get_dependencies pipMetaNumpy =
      [("numpy".data, "1.20.0,<2.0.0".data)] ∧
    "1.20.0,<2.0.0".data ≠ "^1.20.0".data :=
  ⟨rfl, by decide⟩

/-- C3 counterexample: for the dependency string x==1>=2 the first occurring
    operator is == (before >=), yet the reshaper splits at >= and keys the
    produced mapping by x==1 rather than by x. -/
theorem claim_C3_counterexample :
    PipToPoetry.get_dependencies pipMetaMixedOps = [("x==1".data, "2".data)] ∧
    "x==1".data ≠ "x".data :=
  ⟨rfl, by decide⟩

/-- C3 (amended): in the pip-to-Poetry reshapers every dependency string is
    split at the first occurrence of >= when >= occurs anywhere in it — the
    operator >= is checked before ==, not the other way around — and
    otherwise at the first occurrence of ==; the key is the stripped prefix
    and, when the chosen operator occurs exactly once, the value is
    convert_version of the stripped remainder; a string with neither operator
    maps to *.  Both get_dependencies and get_dev_dependencies fold this
    per-entry rule (depEntry) over their input list. -/
theorem claim_C3_split_rule :
    (∀ dep pre post : List Char,
      splitAtFirst geK dep = some (pre, post) → containsSub geK post = false →
      PipToPoetry.depEntry dep =
        (pyStrip pre, PipToPoetry.convert_version (pyStrip post))) ∧
    (∀ dep pre post : List Char, containsSub geK dep = false →
      splitAtFirst eqeqK dep = some (pre, post) → containsSub eqeqK post = false →
      PipToPoetry.depEntry dep =
        (pyStrip pre, PipToPoetry.convert_version (pyStrip post))) ∧
    (∀ dep : List Char, containsSub geK dep = false →
      containsSub eqeqK dep = false →
      PipToPoetry.depEntry dep = (pyStrip dep, starK)) ∧
    (∀ pm : PipProjectMeta, PipToPoetry.get_dependencies pm =
      pm.dependencies.foldl (fun d dep =>
        dictInsert d (PipToPoetry.depEntry dep).1 (PipToPoetry.depEntry dep).2) []) ∧
    (∀ (pm : PipProjectMeta) (devs : List (List Char)),
      pm.optional_dev = some devs →
      PipToPoetry.get_dev_dependencies pm =
        devs.foldl (fun d dep =>
          dictInsert d (PipToPoetry.depEntry dep).1 (PipToPoetry.depEntry dep).2) []) := by
  refine ⟨?_, ?_, ?_, fun pm => rfl, ?_⟩
  · intro dep pre post h1 h2
    have hcont : containsSub geK dep = true := by
      rw [containsSub_eq_isSome geK (by simp [geK]) dep, h1]
      rfl
    simp only [PipToPoetry.depEntry, hcont, if_true]
    rw [splitOnL_of_first h1, splitOnL_no_occ (by simp [geK]) h2]
    simp [joinSepL]
  · intro dep pre post h0 h1 h2
    simp only [PipToPoetry.depEntry, h0, Bool.false_eq_true, if_false]
    rw [splitOnL_of_first h1, splitOnL_no_occ (by simp [eqeqK]) h2]
    simp [joinSepL]
  · intro dep h0 h1
    simp only [PipToPoetry.depEntry, h0, Bool.false_eq_true, if_false]
    rw [splitOnL_no_occ (by simp [eqeqK]) h1]
    simp
  · intro pm devs h
    unfold PipToPoetry.get_dev_dependencies
    rw [h]

/-- Witness for C3 at three concrete dependency strings, one per operator
    case. -/
theorem claim_C3_split_rule_witness :
    PipToPoetry.depEntry "torch>=2.0".data =
      (pyStrip "torch".data, PipToPoetry.convert_version (pyStrip "2.0".data)) ∧
    PipToPoetry.depEntry "requests==2.31.0".data =
      (pyStrip "requests".data,
        PipToPoetry.convert_version (pyStrip "2.31.0".data)) ∧
    PipToPoetry.depEntry "flask".data = (pyStrip "flask".data, starK) :=
  ⟨claim_C3_split_rule.1 "torch>=2.0".data "torch".data "2.0".data rfl rfl,
   claim_C3_split_rule.2.1 "requests==2.31.0".data "requests".data
     "2.31.0".data rfl rfl rfl,
   claim_C3_split_rule.2.2.1 "flask".data rfl rfl⟩

/-- C4 counterexample: the specifier ~2 has a leading tilde with the minor
    component absent; the claim says a range is emitted (minor defaulting
    to 0), but convert_version_specifier raises instead (the two-name tuple
    unpacking of the one-element split fails). -/
theorem claim_C4_counterexample :
    PoetryToPip.convert_version_specifier ('~' :: ['2']) = none := rfl

/-- C4 (amended): convert_version_specifier follows the four priority rules
    on inputs where parsing succeeds — * maps to the empty string; a leading
    caret whose first dotted component parses as an integer emits
    >=original,<(major+1).0.0; a leading tilde with at least two dotted
    components emits >=original,<major.(minor+1).0, the upper bound minor
    defaulting to 0 when the minor component is the empty string; any other
    string is returned unchanged — while a tilde specifier with a single
    dotted component, or a caret specifier whose first component does not
    parse as an integer, raises an error instead of returning. -/
theorem claim_C4_rules :
    (PoetryToPip.convert_version_specifier starK = some []) ∧
    (∀ (base maj : List Char) (m : Int) (rest : List (List Char)),
      splitOnL dotK base = maj :: rest → pyInt maj = some m →
      PoetryToPip.convert_version_specifier ('^' :: base) =
        some (geK ++ base ++ commaLtK ++ pyIntStr (m + 1) ++ dot00K)) ∧
    (∀ (base maj : List Char) (rest : List (List Char)),
      splitOnL dotK base = maj :: [] :: rest →
      PoetryToPip.convert_version_specifier ('~' :: base) =
        some (geK ++ base ++ commaLtK ++ maj ++ dot00K)) ∧
    (∀ (base maj minor : List Char) (mi : Int) (rest : List (List Char)),
      splitOnL dotK base = maj :: minor :: rest → minor ≠ [] →
      pyInt minor = some mi →
      PoetryToPip.convert_version_specifier ('~' :: base) =
        some (geK ++ base ++ commaLtK ++ maj ++ ('.' :: pyIntStr (mi + 1)) ++ dot0K)) ∧
    (∀ version : List Char, version ≠ starK → isPfx caretK version = false →
      isPfx tildeK version = false →
      PoetryToPip.convert_version_specifier version = some version) ∧
    (∀ base maj : List Char, splitOnL dotK base = [maj] →
      PoetryToPip.convert_version_specifier ('~' :: base) = none) ∧
    (∀ (base maj : List Char) (rest : List (List Char)),
      splitOnL dotK base = maj :: rest → pyInt maj = none →
      PoetryToPip.convert_version_specifier ('^' :: base) = none) := by
  refine ⟨cvs_star, ?_, ?_, ?_, ?_, ?_, ?_⟩
  · intro base maj m rest h1 h2
    exact cvs_caret h1 h2
  · intro base maj rest h1
    exact cvs_tilde_empty h1
  · intro base maj minor mi rest h1 h2 h3
    exact cvs_tilde_minor h1 h2 h3
  · intro v h1 h2 h3
    exact cvs_other h1 h2 h3
  · intro base maj h1
    exact cvs_tilde_single h1
  · intro base maj rest h1 h2
    exact cvs_caret_badint h1 h2

/-- Witness for C4 at one concrete input per rule, matching the spec's worked
    examples. -/
theorem claim_C4_rules_witness :
    PoetryToPip.convert_version_specifier "*".data = some [] ∧
    PoetryToPip.convert_version_specifier "^1.2.3".data =
      some ">=1.2.3,<2.0.0".data ∧
    PoetryToPip.convert_version_specifier "~1.".data = some ">=1.,<1.0.0".data ∧
    PoetryToPip.convert_version_specifier "~1.2".data = some ">=1.2,<1.3.0".data ∧
    PoetryToPip.convert_version_specifier "1.2.3".data = some "1.2.3".data ∧
    PoetryToPip.convert_version_specifier "~1".data = none ∧
    PoetryToPip.convert_version_specifier "^a".data = none :=
  ⟨claim_C4_rules.1,
   claim_C4_rules.2.1 "1.2.3".data "1".data 1 [['2'], ['3']] rfl rfl,
   claim_C4_rules.2.2.1 "1.".data "1".data [] rfl,
   claim_C4_rules.2.2.2.1 "1.2".data "1".data "2".data 2 [] rfl (by decide) rfl,
   claim_C4_rules.2.2.2.2.1 "1.2.3".data (by decide) rfl rfl,
   claim_C4_rules.2.2.2.2.2.1 "1".data "1".data rfl,
   claim_C4_rules.2.2.2.2.2.2 "a".data "a".data [] rfl rfl⟩

/-- C5 counterexample: the tilde specifier ~1 has fewer dotted components
    than expected, and convert_version_specifier does crash on it (the
    two-name unpacking of the one-element split raises ValueError), instead
    of defaulting the absent component to 0 and returning a result. -/
theorem claim_C5_counterexample :
    PoetryToPip.convert_version_specifier ('~' :: ['1']) = none := rfl

/-- C5 (amended): a caret specifier with a single numeric dotted component
    does not crash — the absent components are simply not needed and
    >=N,<(N+1).0.0 is returned — and a tilde specifier whose minor component
    is present but empty (such as ~1.) defaults the upper bound's minor
    to 0; but a tilde specifier with a single dotted component (such as ~1)
    raises an unpacking error instead of returning a result. -/
theorem claim_C5_short_specifiers (ds : List Char) (hne : ds ≠ [])
    (hd : ∀ c ∈ ds, c ∈ digits09) :
    PoetryToPip.convert_version_specifier ('^' :: ds) =
      some (geK ++ ds ++ commaLtK ++ natRepr (digitsVal ds + 1) ++ dot00K) ∧
    PoetryToPip.convert_version_specifier ('~' :: (ds ++ ['.'])) =
      some (geK ++ (ds ++ ['.']) ++ commaLtK ++ ds ++ dot00K) ∧
    PoetryToPip.convert_version_specifier ('~' :: ds) = none := by
  have hdot : ('.' : Char) ∉ ds :=
    fun hm => (digit_facts '.' (hd '.' hm)).2.2.2.2.2.2.2.2.1 rfl
  have hnocc : containsSub dotK ds = false :=
    containsSub_head_not_mem '.' [] ds hdot
  have hsingle : splitOnL dotK ds = [ds] :=
    splitOnL_no_occ (by simp [dotK]) hnocc
  refine ⟨?_, ?_, ?_⟩
  · have h2 := pyInt_digits ds hne hd
    have h3 := cvs_caret hsingle h2
    have hcast : ((digitsVal ds : Int) + 1) = ((digitsVal ds + 1 : Nat) : Int) := by
      push_cast
      ring
    rw [hcast, pyIntStr_ofNat] at h3
    exact h3
  · have hfirst : splitAtFirst dotK (ds ++ ['.']) = some (ds, []) := by
      have := splitAtFirst_single '.' ds [] hdot
      simpa using this
    have hsplit2 : splitOnL dotK (ds ++ ['.']) = ds :: [[]] := by
      rw [splitOnL_of_first hfirst]
      rfl
    exact cvs_tilde_empty hsplit2
  · exact cvs_tilde_single hsingle

/-- Witness for C5 at the single-component specifiers over the digit 1. -/
theorem claim_C5_short_specifiers_witness :
    PoetryToPip.convert_version_specifier ('^' :: ['1']) =
      some (geK ++ ['1'] ++ commaLtK ++ natRepr (digitsVal ['1'] + 1) ++ dot00K) ∧
    PoetryToPip.convert_version_specifier ('~' :: (['1'] ++ ['.'])) =
      some (geK ++ (['1'] ++ ['.']) ++ commaLtK ++ ['1'] ++ dot00K) ∧
    PoetryToPip.convert_version_specifier ('~' :: ['1']) = none :=
  claim_C5_short_specifiers ['1'] (by decide) (by decide)

end PyProject

namespace PyProject

/-- C6 counterexample: converting a Poetry document whose dev-dependency
    group contains the python pseudo-dependency keeps that entry in the
    translated dev list: get_dev_dependencies applies no python filter, so
    python is part of a translated dependency list. -/
theorem claim_C6_counterexample :
    PoetryToPip.get_dev_dependencies poetryMetaDevPython =
      some ["python>=3.11,<4.0.0".data] ∧
    isPfx "python".data "python>=3.11,<4.0.0".data = true ∧
    pyLower "python".data = pythonK :=
  ⟨rfl, rfl, rfl⟩

/-- C6 (amended): the python pseudo-dependency is dropped (case-insensitively)
    from the primary dependency list when converting from Poetry — every
    entry of the translated primary list comes from a source entry whose
    lowercased name is not python — and when converting to Poetry a python
    key is always present in the primary dependencies table, sitting first
    with the fixed default ^3.11 whenever the translated pip dependencies do
    not themselves name python; the Poetry-to-pip dev-dependency list applies
    no python filter. -/
theorem claim_C6_python_handling :
    (∀ (pm : PoetryMetadata) (res : List (List Char)) (e : List Char),
      PoetryToPip.get_dependencies pm = some res → e ∈ res →
      ∃ p, p ∈ pm.dependencies ∧ ¬(pyLower p.1 = pythonK) ∧
        PoetryToPip.convEntry p = some e) ∧
    (∀ (pm : PipProjectMeta) (d : PipDoc) (out P DT : Doc),
      (∀ p ∈ d.tool.getD [], ¬(p.1 = poetryK)) →
      PipToPoetry.create_poetry_metadata pm d = some out →
      toolPoetryOf out = some P →
      lookupKV dependenciesK P = some (TVal.tbl DT) →
      (∃ v, lookupKV pythonK DT = some v) ∧
      (pythonK ∉ (PipToPoetry.get_dependencies pm).map Prod.fst →
        DT.head? = some (pythonK, TVal.s caret311K))) := by
  constructor
  · intro pm res e hres he
    unfold PoetryToPip.get_dependencies at hres
    obtain ⟨p, hp, hconv⟩ := mapMOpt_mem _ _ res hres e he
    rw [List.mem_filter] at hp
    refine ⟨p, hp.1, ?_, hconv⟩
    have h2 := hp.2
    simp only [Bool.not_eq_true'] at h2
    exact of_decide_eq_false h2
  · intro pm d out P DT hTool hout hP hDT
    cases hgp : PipToPoetry.get_packages d with
    | none =>
      unfold PipToPoetry.create_poetry_metadata at hout
      rw [hgp] at hout
      simp at hout
    | some pkgs =>
      have hPeq := toolPoetryOf_create pm d pkgs out hgp hTool hout
      rw [hP] at hPeq
      have hPfull := Option.some_inj.mp hPeq
      subst hPfull
      rw [lookupKV_full_deps pm pkgs] at hDT
      have hDTeq := (TVal.tbl.injEq .. ▸ Option.some_inj.mp hDT)
      subst hDTeq
      refine ⟨poetryDepsTbl_python_some pm, fun hnot => ?_⟩
      obtain ⟨d5, hd5⟩ := poetryDepsTbl_head pm hnot
      rw [hd5]
      rfl

/-- Witness for C6 at a concrete Poetry document and a concrete pip
    document. -/
theorem claim_C6_python_handling_witness :
    (∃ p, p ∈ poetryMetaBasic.dependencies ∧ ¬(pyLower p.1 = pythonK) ∧
      PoetryToPip.convEntry p = some "numpy>=1.20.0,<2.0.0".data) ∧
    (∃ out P DT, PipToPoetry.create_poetry_metadata pipMetaNumpy pipDocPlain =
        some out ∧
      toolPoetryOf out = some P ∧
      lookupKV dependenciesK P = some (TVal.tbl DT) ∧
      (∃ v, lookupKV pythonK DT = some v) ∧
      DT.head? = some (pythonK, TVal.s caret311K)) := by
  constructor
  · exact claim_C6_python_handling.1 poetryMetaBasic
      ["numpy>=1.20.0,<2.0.0".data] "numpy>=1.20.0,<2.0.0".data rfl
      (List.mem_cons_self _ _)
  · refine ⟨[(toolK, TVal.tbl (PipToPoetry.tool_table pipMetaNumpy pipDocPlain [])),
        (buildSystemK, TVal.tbl PipToPoetry.poetry_build_system)],
      PipToPoetry.poetry_full pipMetaNumpy [],
      PipToPoetry.poetryDepsTbl pipMetaNumpy, rfl, rfl, rfl, ?_, ?_⟩
    · exact (claim_C6_python_handling.2 pipMetaNumpy pipDocPlain _ _ _
        (fun p hp => absurd hp (by simp [pipDocPlain])) rfl rfl rfl).1
    · exact (claim_C6_python_handling.2 pipMetaNumpy pipDocPlain _ _ _
        (fun p hp => absurd hp (by simp [pipDocPlain])) rfl rfl rfl).2
        (by decide)

/-- C7 counterexample: a Poetry source document carrying an unrelated
    tool.black section converts to a pip document that contains only the
    project and build-system sections — the unrelated tool section is not
    copied through, contradicting the claim for the Poetry-to-pip
    direction. -/
theorem claim_C7_counterexample :
    poetryDocWithBlack.other_tools =
      [("black".data, TVal.tbl [("line-length".data, TVal.s "88".data)])] ∧
    (PoetryToPip.poetry_to_pip_convert poetryDocWithBlack).map
      (fun o => o.map Prod.fst) = some [projectK, buildSystemK] ∧
    (PoetryToPip.poetry_to_pip_convert poetryDocWithBlack).map
      (lookupKV toolK) = some none :=
  ⟨rfl, rfl, rfl⟩

/-- C7 (amended): section passthrough only happens in the pip-to-Poetry
    direction — every source tool section other than tool.setuptools is
    carried unchanged into the output tool table and tool.setuptools is
    dropped — while the Poetry-to-pip direction copies no tool section at
    all: its output document consists of exactly the project and
    build-system sections. -/
theorem claim_C7_sections :
    (∀ (pm : PipProjectMeta) (d : PipDoc) (tl : List (List Char × TVal))
       (out : Doc) (k : List Char) (v : TVal),
      PipToPoetry.create_poetry_metadata pm d = some out →
      d.tool = some tl → (tl.map Prod.fst).Nodup → (k, v) ∈ tl →
      ¬(k = setuptoolsK) →
      ∃ T, lookupKV toolK out = some (TVal.tbl T) ∧ lookupKV k T = some v) ∧
    (∀ (pm : PipProjectMeta) (d : PipDoc) (out : Doc),
      PipToPoetry.create_poetry_metadata pm d = some out →
      ∃ T, lookupKV toolK out = some (TVal.tbl T) ∧
        lookupKV setuptoolsK T = none) ∧
    (∀ (d : PoetryDoc) (out : Doc),
      PoetryToPip.poetry_to_pip_convert d = some out →
      out.map Prod.fst = [projectK, buildSystemK]) := by
  refine ⟨?_, ?_, ?_⟩
  · intro pm d tl out k v hout htl hnd hm hks
    cases hgp : PipToPoetry.get_packages d with
    | none =>
      unfold PipToPoetry.create_poetry_metadata at hout
      rw [hgp] at hout
      simp at hout
    | some pkgs =>
      have hlit := create_poetry_metadata_eq pm d pkgs hgp
      rw [hout] at hlit
      have ho := (Option.some_inj.mp hlit).symm
      subst ho
      refine ⟨PipToPoetry.tool_table pm d pkgs, by simp [lookupKV], ?_⟩
      unfold PipToPoetry.tool_table
      rw [htl, Option.getD_some]
      exact foldl_toolcopy_lookup tl _ k v hnd hm hks
  · intro pm d out hout
    cases hgp : PipToPoetry.get_packages d with
    | none =>
      unfold PipToPoetry.create_poetry_metadata at hout
      rw [hgp] at hout
      simp at hout
    | some pkgs =>
      have hlit := create_poetry_metadata_eq pm d pkgs hgp
      rw [hout] at hlit
      have ho := (Option.some_inj.mp hlit).symm
      subst ho
      exact ⟨PipToPoetry.tool_table pm d pkgs, by simp [lookupKV],
        lookupKV_tool_table_setuptools pm d pkgs⟩
  · intro d out hout
    cases hcp : PoetryToPip.create_pip_metadata (PoetryToPip.get_poetry_metadata d) with
    | none =>
      unfold PoetryToPip.poetry_to_pip_convert at hout
      rw [hcp] at hout
      simp at hout
    | some pipm =>
      unfold PoetryToPip.poetry_to_pip_convert at hout
      rw [hcp] at hout
      exact write_shape pipm out hout

/-- Witness for C7 at a concrete pip document with an unrelated tool.ruff
    section, and a concrete Poetry document. -/
theorem claim_C7_sections_witness :
    (∃ out, PipToPoetry.create_poetry_metadata pipMetaNumpy pipDocFind =
        some out ∧
      (∃ T, lookupKV toolK out = some (TVal.tbl T) ∧
        lookupKV "ruff".data T =
          some (TVal.tbl [("line-length".data, TVal.s "88".data)])) ∧
      (∃ T, lookupKV toolK out = some (TVal.tbl T) ∧
        lookupKV setuptoolsK T = none)) ∧
    (∃ out, PoetryToPip.poetry_to_pip_convert poetryDocWithBlack = some out ∧
      out.map Prod.fst = [projectK, buildSystemK]) := by
  constructor
  · refine ⟨[(toolK, TVal.tbl (PipToPoetry.tool_table pipMetaNumpy pipDocFind
        [TVal.tbl [(includeK, TVal.s docktunaK), (fromK, TVal.s "src".data)]])),
      (buildSystemK, TVal.tbl PipToPoetry.poetry_build_system)], rfl, ?_, ?_⟩
    · exact claim_C7_sections.1 pipMetaNumpy pipDocFind _ _ "ruff".data _
        rfl rfl (by decide)
        (List.mem_cons_of_mem _ (List.mem_cons_self _ _)) (by decide)
    · exact claim_C7_sections.2.1 pipMetaNumpy pipDocFind _ rfl
  · have h1 : (PoetryToPip.poetry_to_pip_convert poetryDocWithBlack).isSome = true := rfl
    obtain ⟨out2, hout2⟩ := Option.isSome_iff_exists.mp h1
    exact ⟨out2, hout2, claim_C7_sections.2.2 poetryDocWithBlack out2 hout2⟩

end PyProject

namespace PyProject

theorem old_poetry_pyproject_eq (m : OldProjectMetadata)
    (deps : List (List Char × List Char))
    (hdl : OldPipToPoetry.oldDepsLoop [(pythonK, caret311K)] m.dependencies =
      some deps) (hdev : m.dev = []) :
    OldPipToPoetry.poetry_pyproject m =
      some [(toolK, TVal.tbl [(poetryK, TVal.tbl
              [(nameK, TVal.s m.name),
               (versionK, TVal.s m.version),
               (descriptionK, TVal.s m.description),
               (authorsK, TVal.arr (m.authors.map TVal.s)),
               (dependenciesK, TVal.tbl
                 (deps.map (fun p => (p.1, TVal.s p.2)))),
               (groupK, TVal.tbl [])])]),
            (buildSystemK, TVal.tbl
              [(requiresK, TVal.arr [TVal.s "poetry-core".data]),
               (buildBackendK, TVal.s "poetry.core.masonry.api".data)])] := by
  unfold OldPipToPoetry.poetry_pyproject
  rw [hdl, hdev]
  simp

/-- C8: whenever the source document has no dev-dependency group, the output
    has no dev-dependency section at all, in all three converters: the pip
    output of create_pip_metadata carries no optional-dependencies key, the
    Poetry output of create_poetry_metadata carries no group key under
    tool.poetry, and the old script's output maps group to the empty table,
    so no group.dev.dependencies table exists there either. -/
theorem claim_C8_no_dev_section :
    (∀ (pm : PoetryMetadata) (out proj : Doc),
      (pm.group = none ∨ pm.group = some none) →
      PoetryToPip.create_pip_metadata pm = some out →
      lookupKV projectK out = some (TVal.tbl proj) →
      lookupKV optDepsK proj = none) ∧
    (∀ (pm : PipProjectMeta) (d : PipDoc) (out P : Doc),
      pm.optional_dev = none →
      (∀ p ∈ d.tool.getD [], ¬(p.1 = poetryK)) →
      PipToPoetry.create_poetry_metadata pm d = some out →
      toolPoetryOf out = some P →
      lookupKV groupK P = none) ∧
    (∀ (m : OldProjectMetadata) (out P : Doc),
      m.dev = [] →
      OldPipToPoetry.poetry_pyproject m = some out →
      toolPoetryOf out = some P →
      lookupKV groupK P = some (TVal.tbl [])) := by
  refine ⟨?_, ?_, ?_⟩
  · intro pm out proj hgrp hout hproj
    have hdev : PoetryToPip.get_dev_dependencies pm = some [] := by
      rcases hgrp with h | h
      · simp [PoetryToPip.get_dev_dependencies, h]
      · simp [PoetryToPip.get_dev_dependencies, h]
    cases hdeps : PoetryToPip.get_dependencies pm with
    | none =>
      unfold PoetryToPip.create_pip_metadata at hout
      rw [hdeps] at hout
      simp at hout
    | some deps =>
      have hlit := create_pip_metadata_eq pm deps [] hdeps hdev
      rw [hout] at hlit
      have ho := (Option.some_inj.mp hlit).symm
      subst ho
      have hpj : lookupKV projectK
          [(projectK, TVal.tbl (PoetryToPip.pip_project pm deps [])),
           (buildSystemK, TVal.tbl PoetryToPip.pip_build_system)] =
          some (TVal.tbl (PoetryToPip.pip_project pm deps [])) := by
        simp [lookupKV]
      rw [hpj] at hproj
      have h2 := Option.some_inj.mp hproj
      have hpe : proj = PoetryToPip.pip_project pm deps [] := by
        injection h2 with h3
        exact h3.symm
      subst hpe
      exact lookupKV_pip_project_optDeps_nil pm deps
  · intro pm d out P hod hTool hout hP
    have hdev : PipToPoetry.get_dev_dependencies pm = [] := by
      simp [PipToPoetry.get_dev_dependencies, hod]
    cases hgp : PipToPoetry.get_packages d with
    | none =>
      unfold PipToPoetry.create_poetry_metadata at hout
      rw [hgp] at hout
      simp at hout
    | some pkgs =>
      have hPeq := toolPoetryOf_create pm d pkgs out hgp hTool hout
      rw [hP] at hPeq
      have hPfull := Option.some_inj.mp hPeq
      subst hPfull
      exact lookupKV_full_group_nil pm pkgs hdev
  · intro m out P hdev0 hout hP
    cases hdl : OldPipToPoetry.oldDepsLoop [(pythonK, caret311K)]
        m.dependencies with
    | none =>
      unfold OldPipToPoetry.poetry_pyproject at hout
      rw [hdl] at hout
      simp at hout
    | some deps =>
      have hlit := old_poetry_pyproject_eq m deps hdl hdev0
      rw [hout] at hlit
      have ho := (Option.some_inj.mp hlit).symm
      subst ho
      have houter : lookupKV toolK
          [(toolK, TVal.tbl [(poetryK, TVal.tbl
              [(nameK, TVal.s m.name),
               (versionK, TVal.s m.version),
               (descriptionK, TVal.s m.description),
               (authorsK, TVal.arr (m.authors.map TVal.s)),
               (dependenciesK, TVal.tbl
                 (deps.map (fun p => (p.1, TVal.s p.2)))),
               (groupK, TVal.tbl [])])]),
            (buildSystemK, TVal.tbl
              [(requiresK, TVal.arr [TVal.s "poetry-core".data]),
               (buildBackendK, TVal.s "poetry.core.masonry.api".data)])] =
          some (TVal.tbl [(poetryK, TVal.tbl
              [(nameK, TVal.s m.name),
               (versionK, TVal.s m.version),
               (descriptionK, TVal.s m.description),
               (authorsK, TVal.arr (m.authors.map TVal.s)),
               (dependenciesK, TVal.tbl
                 (deps.map (fun p => (p.1, TVal.s p.2)))),
               (groupK, TVal.tbl [])])]) := by
        simp [lookupKV]
      have hinner : lookupKV poetryK [(poetryK, TVal.tbl
              [(nameK, TVal.s m.name),
               (versionK, TVal.s m.version),
               (descriptionK, TVal.s m.description),
               (authorsK, TVal.arr (m.authors.map TVal.s)),
               (dependenciesK, TVal.tbl
                 (deps.map (fun p => (p.1, TVal.s p.2)))),
               (groupK, TVal.tbl [])])] =
          some (TVal.tbl
              [(nameK, TVal.s m.name),
               (versionK, TVal.s m.version),
               (descriptionK, TVal.s m.description),
               (authorsK, TVal.arr (m.authors.map TVal.s)),
               (dependenciesK, TVal.tbl
                 (deps.map (fun p => (p.1, TVal.s p.2)))),
               (groupK, TVal.tbl [])]) := by
        simp [lookupKV]
      simp only [toolPoetryOf, houter, hinner] at hP
      have hPfull := Option.some_inj.mp hP
      subst hPfull
      simp only [lookupKV]
      rw [if_neg (by decide), if_neg (by decide), if_neg (by decide),
        if_neg (by decide), if_neg (by decide), if_pos (by decide)]

/-- Witness for C8 at concrete documents without dev groups, in all three
    converters. -/
theorem claim_C8_no_dev_section_witness :
    (∃ out proj, PoetryToPip.create_pip_metadata poetryMetaBasic = some out ∧
      lookupKV projectK out = some (TVal.tbl proj) ∧
      lookupKV optDepsK proj = none) ∧
    (∃ out P, PipToPoetry.create_poetry_metadata pipMetaNumpy pipDocPlain =
        some out ∧ toolPoetryOf out = some P ∧ lookupKV groupK P = none) ∧
    (∃ out P, OldPipToPoetry.poetry_pyproject oldMetaBasic = some out ∧
      toolPoetryOf out = some P ∧ lookupKV groupK P = some (TVal.tbl [])) := by
  refine ⟨⟨[(projectK, TVal.tbl (PoetryToPip.pip_project poetryMetaBasic
        ["numpy>=1.20.0,<2.0.0".data] [])),
      (buildSystemK, TVal.tbl PoetryToPip.pip_build_system)],
      PoetryToPip.pip_project poetryMetaBasic ["numpy>=1.20.0,<2.0.0".data] [],
      rfl, rfl, ?_⟩,
    ⟨[(toolK, TVal.tbl (PipToPoetry.tool_table pipMetaNumpy pipDocPlain [])),
      (buildSystemK, TVal.tbl PipToPoetry.poetry_build_system)],
      PipToPoetry.poetry_full pipMetaNumpy [], rfl, rfl, ?_⟩,
    ⟨[(toolK, TVal.tbl [(poetryK, TVal.tbl
        [(nameK, TVal.s "demo".data),
         (versionK, TVal.s "0.1.0".data),
         (descriptionK, TVal.s "a demo".data),
         (authorsK, TVal.arr [TVal.s "Ada".data]),
         (dependenciesK, TVal.tbl
           [("python".data, TVal.s "^3.11".data),
            ("requests".data, TVal.s "2.31.0".data),
            ("flask".data, TVal.s "*".data)]),
         (groupK, TVal.tbl [])])]),
      (buildSystemK, TVal.tbl
        [(requiresK, TVal.arr [TVal.s "poetry-core".data]),
         (buildBackendK, TVal.s "poetry.core.masonry.api".data)])],
      [(nameK, TVal.s "demo".data),
       (versionK, TVal.s "0.1.0".data),
       (descriptionK, TVal.s "a demo".data),
       (authorsK, TVal.arr [TVal.s "Ada".data]),
       (dependenciesK, TVal.tbl
         [("python".data, TVal.s "^3.11".data),
          ("requests".data, TVal.s "2.31.0".data),
          ("flask".data, TVal.s "*".data)]),
       (groupK, TVal.tbl [])], rfl, rfl, ?_⟩⟩
  · exact claim_C8_no_dev_section.1 poetryMetaBasic _ _ (Or.inl rfl) rfl rfl
  · exact claim_C8_no_dev_section.2.1 pipMetaNumpy pipDocPlain _ _ rfl
      (fun p hp => absurd hp (by simp [pipDocPlain])) rfl rfl
  · exact claim_C8_no_dev_section.2.2 oldMetaBasic _ _ rfl rfl rfl

/-- C9: in the pip-to-Poetry conversion, when the source
    tool.setuptools.packages.find.where declaration is present with at least
    one root, the output tool.poetry table carries a one-element packages
    list whose entry records that root under its from key; when the
    setuptools/packages/find chain is absent, the packages key is omitted
    from the output entirely. -/
theorem claim_C9_packages :
    (∀ (pm : PipProjectMeta) (d : PipDoc) (tl st pk fd : List (List Char × TVal))
       (w : TVal) (ws : List TVal) (out P : Doc),
      d.tool = some tl →
      lookupKV setuptoolsK tl = some (TVal.tbl st) →
      lookupKV packagesK st = some (TVal.tbl pk) →
      lookupKV findK pk = some (TVal.tbl fd) →
      lookupKV whereK fd = some (TVal.arr (w :: ws)) →
      (∀ p ∈ d.tool.getD [], ¬(p.1 = poetryK)) →
      PipToPoetry.create_poetry_metadata pm d = some out →
      toolPoetryOf out = some P →
      lookupKV packagesK P =
        some (TVal.arr [TVal.tbl [(includeK, TVal.s docktunaK), (fromK, w)]])) ∧
    (∀ (pm : PipProjectMeta) (d : PipDoc) (out P : Doc),
      (d.tool = none ∨
        (∃ tl, d.tool = some tl ∧ lookupKV setuptoolsK tl = none) ∨
        (∃ tl st, d.tool = some tl ∧
          lookupKV setuptoolsK tl = some (TVal.tbl st) ∧
          lookupKV packagesK st = none) ∨
        (∃ tl st pk, d.tool = some tl ∧
          lookupKV setuptoolsK tl = some (TVal.tbl st) ∧
          lookupKV packagesK st = some (TVal.tbl pk) ∧
          lookupKV findK pk = none)) →
      (∀ p ∈ d.tool.getD [], ¬(p.1 = poetryK)) →
      PipToPoetry.create_poetry_metadata pm d = some out →
      toolPoetryOf out = some P →
      lookupKV packagesK P = none) := by
  constructor
  · intro pm d tl st pk fd w ws out P htool hst hpk hfd hw hTool hout hP
    have hgp : PipToPoetry.get_packages d =
        some [TVal.tbl [(includeK, TVal.s docktunaK), (fromK, w)]] := by
      simp only [PipToPoetry.get_packages, htool, hst, hpk, hfd, hw]
    have hPeq := toolPoetryOf_create pm d _ out hgp hTool hout
    rw [hP] at hPeq
    have hPfull := Option.some_inj.mp hPeq
    subst hPfull
    exact lookupKV_full_packages_cons pm _ []
  · intro pm d out P habs hTool hout hP
    have hgp : PipToPoetry.get_packages d = some [] := by
      rcases habs with h | ⟨tl, h1, h2⟩ | ⟨tl, st, h1, h2, h3⟩ |
        ⟨tl, st, pk, h1, h2, h3, h4⟩
      · simp only [PipToPoetry.get_packages, h]
      · simp only [PipToPoetry.get_packages, h1, h2]
      · simp only [PipToPoetry.get_packages, h1, h2, h3]
      · simp only [PipToPoetry.get_packages, h1, h2, h3, h4]
    have hPeq := toolPoetryOf_create pm d [] out hgp hTool hout
    rw [hP] at hPeq
    have hPfull := Option.some_inj.mp hPeq
    subst hPfull
    exact lookupKV_full_packages_nil pm

/-- Witness for C9 at a document declaring a discovery root and one without
    any setuptools section. -/
theorem claim_C9_packages_witness :
    (∃ out P, PipToPoetry.create_poetry_metadata pipMetaNumpy pipDocFind =
        some out ∧ toolPoetryOf out = some P ∧
      lookupKV packagesK P = some (TVal.arr
        [TVal.tbl [(includeK, TVal.s docktunaK), (fromK, TVal.s "src".data)]])) ∧
    (∃ out P, PipToPoetry.create_poetry_metadata pipMetaNumpy pipDocPlain =
        some out ∧ toolPoetryOf out = some P ∧
      lookupKV packagesK P = none) := by
  refine ⟨⟨[(toolK, TVal.tbl (PipToPoetry.tool_table pipMetaNumpy pipDocFind
        [TVal.tbl [(includeK, TVal.s docktunaK), (fromK, TVal.s "src".data)]])),
      (buildSystemK, TVal.tbl PipToPoetry.poetry_build_system)],
      PipToPoetry.poetry_full pipMetaNumpy
        [TVal.tbl [(includeK, TVal.s docktunaK), (fromK, TVal.s "src".data)]],
      rfl, rfl, ?_⟩,
    ⟨[(toolK, TVal.tbl (PipToPoetry.tool_table pipMetaNumpy pipDocPlain [])),
      (buildSystemK, TVal.tbl PipToPoetry.poetry_build_system)],
      PipToPoetry.poetry_full pipMetaNumpy [], rfl, rfl, ?_⟩⟩
  · exact claim_C9_packages.1 pipMetaNumpy pipDocFind _ _ _ _ _ _ _ _
      rfl rfl rfl rfl rfl
      (by intro p hp
          rcases List.mem_cons.mp hp with h | h
          · rw [h]; decide
          rcases List.mem_cons.mp h with h2 | h2
          · rw [h2]; decide
          · exact absurd h2 (List.not_mem_nil p))
      rfl rfl
  · exact claim_C9_packages.2 pipMetaNumpy pipDocPlain _ _ (Or.inl rfl)
      (fun p hp => absurd hp (by simp [pipDocPlain])) rfl rfl

/-- C10: the pip metadata produced by create_pip_metadata never contains a
    license field — not at the top level, not in the project table, not in
    the build-system table, and not in the optional-dependencies table —
    even when the source tool.poetry table has one (the model's license
    field is arbitrary and is never read). -/
theorem claim_C10_license_dropped (pm : PoetryMetadata) (out : Doc)
    (hout : PoetryToPip.create_pip_metadata pm = some out) :
    lookupKV licenseK out = none ∧
    (∀ proj, lookupKV projectK out = some (TVal.tbl proj) →
      lookupKV licenseK proj = none) ∧
    (∀ bs, lookupKV buildSystemK out = some (TVal.tbl bs) →
      lookupKV licenseK bs = none) ∧
    (∀ proj od, lookupKV projectK out = some (TVal.tbl proj) →
      lookupKV optDepsK proj = some (TVal.tbl od) →
      lookupKV licenseK od = none) := by
  cases hdeps : PoetryToPip.get_dependencies pm with
  | none =>
    unfold PoetryToPip.create_pip_metadata at hout
    rw [hdeps] at hout
    simp at hout
  | some deps =>
    cases hdev : PoetryToPip.get_dev_dependencies pm with
    | none =>
      unfold PoetryToPip.create_pip_metadata at hout
      rw [hdeps, hdev] at hout
      simp at hout
    | some devs =>
      have hlit := create_pip_metadata_eq pm deps devs hdeps hdev
      rw [hout] at hlit
      have ho := (Option.some_inj.mp hlit).symm
      subst ho
      have hpj : lookupKV projectK
          [(projectK, TVal.tbl (PoetryToPip.pip_project pm deps devs)),
           (buildSystemK, TVal.tbl PoetryToPip.pip_build_system)] =
          some (TVal.tbl (PoetryToPip.pip_project pm deps devs)) := by
        simp [lookupKV]
      have hbj : lookupKV buildSystemK
          [(projectK, TVal.tbl (PoetryToPip.pip_project pm deps devs)),
           (buildSystemK, TVal.tbl PoetryToPip.pip_build_system)] =
          some (TVal.tbl PoetryToPip.pip_build_system) := by
        simp only [lookupKV]
        rw [if_neg (by decide), if_pos (by decide)]
      refine ⟨?_, ?_, ?_, ?_⟩
      · simp only [lookupKV]
        rw [if_neg (by decide), if_neg (by decide)]
      · intro proj hproj
        rw [hpj] at hproj
        have h2 := Option.some_inj.mp hproj
        have hpe : proj = PoetryToPip.pip_project pm deps devs := by
          injection h2 with h3
          exact h3.symm
        subst hpe
        exact lookupKV_pip_project_license pm deps devs
      · intro bs hbs
        rw [hbj] at hbs
        have h2 := Option.some_inj.mp hbs
        have hbe : bs = PoetryToPip.pip_build_system := by
          injection h2 with h3
          exact h3.symm
        subst hbe
        rfl
      · intro proj od hproj hod
        rw [hpj] at hproj
        have h2 := Option.some_inj.mp hproj
        have hpe : proj = PoetryToPip.pip_project pm deps devs := by
          injection h2 with h3
          exact h3.symm
        subst hpe
        cases devs with
        | nil =>
          rw [lookupKV_pip_project_optDeps_nil pm deps] at hod
          simp at hod
        | cons v0 vs =>
          rw [lookupKV_pip_project_optDeps_cons pm deps (v0 :: vs)
            (by simp)] at hod
          have h3 := Option.some_inj.mp hod
          have hode : od = [(devK, TVal.arr ((v0 :: vs).map TVal.s))] := by
            injection h3 with h4
            exact h4.symm
          subst hode
          simp only [lookupKV]
          rw [if_neg (by decide)]

/-- Witness for C10 at a Poetry table carrying an MIT license. -/
theorem claim_C10_license_dropped_witness :
    ∃ out, PoetryToPip.create_pip_metadata poetryMetaBasic = some out ∧
      poetryMetaBasic.license = some "MIT".data ∧
      lookupKV licenseK out = none ∧
      ∃ proj, lookupKV projectK out = some (TVal.tbl proj) ∧
        lookupKV licenseK proj = none := by
  refine ⟨[(projectK, TVal.tbl (PoetryToPip.pip_project poetryMetaBasic
        ["numpy>=1.20.0,<2.0.0".data] [])),
      (buildSystemK, TVal.tbl PoetryToPip.pip_build_system)],
      rfl, rfl, ?_,
      PoetryToPip.pip_project poetryMetaBasic ["numpy>=1.20.0,<2.0.0".data] [],
      rfl, ?_⟩
  · exact (claim_C10_license_dropped poetryMetaBasic _ rfl).1
  · exact (claim_C10_license_dropped poetryMetaBasic _ rfl).2.1 _ rfl

end PyProject
